import Mathlib

/-!
Verification of the subscription renewal service (`app/main.py`,
`app/subs_db.py`, `app/db_utils.py`, `app/ns.py`, `app/models.py`).

Shallow embedding conventions:
* The database table `subscriptions` is a `List Subscription`; SQLAlchemy
  sessions commit at the end of each helper, so each helper is one store
  transition (`db_utils.get_session`).
* Remote HTTP calls (`ns.py`) are oracles passed in the environment:
  a Python `raise` is `Except.error`.
* Python `datetime` values are `DT` records (UTC civil time); the stdlib
  arithmetic `now + timedelta(...)` is external to the repository, so the
  already-added datetimes (`renewal_threshold`, `new_expire_dt_obj`) are
  inputs of the embedded functions, exactly as the values appear at
  `subs_db.py:33` and `main.py:66`.
* `strftime("%Y-%m-%d %H:%M:%S")` is `render`.
* SQL string comparison (`subs_db.py:38`) is byte-lexicographic (`strLe`).
* Logging is dropped; `await` sequencing is function composition.
-/

set_option maxHeartbeats 1000000

namespace NMS

/-- A UTC civil datetime as held by a Python `datetime` object:
year, month, day, hour, minute, second (microseconds are never rendered
by the `%Y-%m-%d %H:%M:%S` format and play no role in the repository). -/
structure DT where
  year : Nat
  month : Nat
  day : Nat
  hour : Nat
  minute : Nat
  second : Nat
deriving DecidableEq, Repr

/-- Field widths of the `%Y-%m-%d %H:%M:%S` format: four-digit year and
two-digit remaining fields.  Every real datetime with a four-digit year
satisfies this (months are 1..12, days 1..31, hours 0..23, minutes and
seconds 0..59). -/
def DT.Valid (t : DT) : Prop :=
  1000 ≤ t.year ∧ t.year ≤ 9999 ∧ t.month ≤ 99 ∧ t.day ≤ 99 ∧
    t.hour ≤ 99 ∧ t.minute ≤ 99 ∧ t.second ≤ 99

instance (t : DT) : Decidable t.Valid := by
  unfold DT.Valid; infer_instance

/-- Chronological strict order on civil datetimes: lexicographic on
(year, month, day, hour, minute, second). -/
def DT.ltB (a b : DT) : Bool :=
  decide (a.year < b.year) || (a.year == b.year &&
    (decide (a.month < b.month) || (a.month == b.month &&
      (decide (a.day < b.day) || (a.day == b.day &&
        (decide (a.hour < b.hour) || (a.hour == b.hour &&
          (decide (a.minute < b.minute) || (a.minute == b.minute &&
            decide (a.second < b.second))))))))))

/-- Chronological non-strict order on civil datetimes. -/
def DT.leB (a b : DT) : Bool := a == b || DT.ltB a b

/-- The digit character for `n < 10` (ASCII `'0' + n`). -/
def digitChar (n : Nat) : Char := Char.ofNat (48 + n)

/-- Two-digit zero-padded rendering (`%m`, `%d`, `%H`, `%M`, `%S`). -/
def fmt2 (n : Nat) : List Char := [digitChar (n / 10), digitChar (n % 10)]

/-- Four-digit zero-padded rendering (`%Y` for four-digit years). -/
def fmt4 (n : Nat) : List Char := fmt2 (n / 100) ++ fmt2 (n % 100)

/-- `strftime("%Y-%m-%d %H:%M:%S")` (`main.py:67`, `subs_db.py:34`,
`ns.py:37`). -/
def render (t : DT) : String :=
  ⟨fmt4 t.year ++ '-' :: (fmt2 t.month ++ '-' :: (fmt2 t.day ++ ' ' ::
    (fmt2 t.hour ++ ':' :: (fmt2 t.minute ++ ':' :: fmt2 t.second))))⟩

/-- Byte-lexicographic strict order on character lists: the order the
SQL string comparison at `subs_db.py:38` uses on the ASCII timestamp
strings. -/
def lexLt : List Char → List Char → Bool
  | [], [] => false
  | [], _ :: _ => true
  | _ :: _, [] => false
  | a :: as, b :: bs => decide (a < b) || (a == b && lexLt as bs)

/-- Lexicographic strict order on strings. -/
def strLt (s t : String) : Bool := lexLt s.data t.data

/-- Lexicographic non-strict order on strings (SQL `<=`). -/
def strLe (s t : String) : Bool := s == t || strLt s t

/-- A row of the `subscriptions` table (`models.py:9-26`).  `id` and
`created_at` are server-assigned and never touched by the service logic;
`id` is kept as an opaque `Nat`, `created_at` is dropped. -/
structure Subscription where
  id : Nat
  last_updated : Option String
  domain : String
  model : String
  expires : String
  subscription_id : String
  post_url : String
  user : String
  oauth_token : String
  refresh_token : String
deriving DecidableEq, Repr

/-- The response body of a successful token request (`ns.py`): the only
keys the service reads are `access_token` and `refresh_token`, either of
which may be missing from the JSON (`dict.get`). -/
structure TokenData where
  access_token : Option String
  refresh_token : Option String
deriving DecidableEq, Repr

/-- The `update_data` dict built by the renewal path (`main.py:94-101`):
`refresh_token` is `new_token_data.get("refresh_token")`, hence optional. -/
structure RenewalUpdate where
  expires : String
  last_updated : String
  oauth_token : String
  refresh_token : Option String
deriving DecidableEq, Repr

/-- Database-level failures of `db_utils.update_table` as invoked by the
renewal path. -/
inductive DBErr
  /-- No row matched the filter, so the upsert takes the insert branch
  (`db_utils.py:93-97`); the renewal `update_data` lacks the non-null
  columns `domain`, `model`, `subscription_id`(in filters only),
  `post_url`, `user`, so the commit fails. -/
  | upsertInsertFailed
  /-- `update_data["refresh_token"]` was `None` and the column is
  `nullable=False`, so the commit fails. -/
  | nullRefreshToken
deriving DecidableEq, Repr

/-- `db_utils.read_from_table(model=Subscriptions, filters={"domain": d})`
(`main.py:71-73`): a pure select. -/
def read_from_table (store : List Subscription) (domain : String) :
    List Subscription :=
  store.filter (fun r => r.domain == domain)

/-- `db_utils.update_table(Subscriptions, {"subscription_id": sid}, u)`
as called from the renewal path (`main.py:102-106`, `db_utils.py:78-112`):
update every matching row with all fields of `u` in one transaction, or
take the failing insert branch when nothing matches. -/
def update_table (store : List Subscription) (sid : String)
    (u : RenewalUpdate) : Except DBErr (List Subscription) :=
  if store.any (fun r => r.subscription_id == sid) then
    match u.refresh_token with
    | some rt =>
      .ok (store.map (fun r =>
        if r.subscription_id == sid then
          { r with expires := u.expires, last_updated := some u.last_updated,
                   oauth_token := u.oauth_token, refresh_token := rt }
        else r))
    | none => .error .nullRefreshToken
  else .error .upsertInsertFailed

/-- `subs_db.SubscriptionsDB.fetch_expiring_subscriptions`
(`subs_db.py:27-46`): select rows whose `expires` string is `<=` the
rendered threshold `now + timedelta(seconds=Config.RENEWAL_INTERVAL)`.
The pair returns the selected rows together with the (unmodified) store,
making the absence of writes part of the definition's statement. -/
def fetch_expiring_subscriptions (store : List Subscription)
    (renewal_threshold : DT) : List Subscription × List Subscription :=
  (store.filter (fun r => strLe r.expires (render renewal_threshold)), store)

/-- `list({d.domain for d in subscriptions})` (`main.py:58`): the unique
domains.  Python's set iteration order is unspecified; the embedding
fixes one order (later duplicates win), which is one of the possible
orders. -/
def uniqueDomains : List String → List String
  | [] => []
  | d :: ds =>
    let rest := uniqueDomains ds
    if d ∈ rest then rest else d :: rest

/-- Remote calls issued during a cycle (instrumentation of the embedding:
one entry per outbound HTTP request of `main.py:75` and `main.py:87`). -/
inductive Event
  /-- `ns_api.refresh_access_token(expiring_subs[0].refresh_token)` while
  renewing `domain`. -/
  | refreshCall (domain tok : String)
  /-- `ns_api.update_subscription(new_expire, subscription_id, tok, domain)`. -/
  | pushCall (new_expire subscription_id tok domain : String)
deriving DecidableEq, Repr

/-- The Python exception that aborts a cycle, tagged with where it arose. -/
inductive EngineError
  /-- `refresh_access_token` raised (non-200 response, `ns.py:72-77`). -/
  | refreshFailed (domain : String)
  /-- The refresh response had no truthy `access_token` (`main.py:78-81`). -/
  | noAccessToken (domain : String)
  /-- `update_subscription` raised (non-202 response, `ns.py:245-248`). -/
  | pushFailed (domain subscription_id : String)
  /-- `update_table` raised. -/
  | dbFailed (domain subscription_id : String) (e : DBErr)
  /-- `expiring_subs[0]` on an empty list (`main.py:76`). -/
  | indexError (domain : String)
deriving DecidableEq, Repr

/-- Remote environment and cycle-fixed datetimes of one invocation of
`check_and_update_subscriptions`. -/
structure Env where
  /-- Oracle for `ns.py:refresh_access_token`: response as a function of
  the refresh token sent. -/
  refresh_access_token : String → Except Unit TokenData
  /-- Oracle for `ns.py:update_subscription`: outcome as a function of
  `(new_expire, subscription_id, token, domain)`. -/
  update_subscription : String → String → String → String → Except Unit Unit
  /-- `now + timedelta(seconds=Config.RENEWAL_INTERVAL)` (`subs_db.py:33`),
  computed by the Python datetime library. -/
  renewal_threshold : DT
  /-- `now + Config.SUBSCRIPTION_DURATION` (`main.py:66`), computed by the
  Python datetime library. -/
  new_expire_dt : DT
  /-- Rendering of `datetime.now(timezone.utc)` taken at the local writes
  (`main.py:96-98`; the code re-reads the clock per write, but no claim
  depends on the values, so one rendering stands for all of them). -/
  lu : String

/-- Outcome of (part of) a cycle: final store, remote calls made, the
store snapshot after each committed local write, and the propagating
exception if one was raised. -/
structure CycleResult where
  store : List Subscription
  events : List Event
  trace : List (List Subscription)
  err : Option EngineError
deriving DecidableEq, Repr

/-- The inner loop of `check_and_update_subscriptions` (`main.py:85-106`):
for each subscription of the domain, push the new expiry remotely, then
persist `expires`/`last_updated`/`oauth_token`/`refresh_token` locally.
No exception is caught: the first failure aborts with the store as
already committed. -/
def renewSubs (env : Env) (new_expire new_oauth : String)
    (new_refresh : Option String) :
    List Subscription → List Subscription → CycleResult
  | [], store => ⟨store, [], [], none⟩
  | sublist :: rest, store =>
    let ev := Event.pushCall new_expire sublist.subscription_id new_oauth
      sublist.domain
    match env.update_subscription new_expire sublist.subscription_id
        new_oauth sublist.domain with
    | .error _ =>
      ⟨store, [ev], [], some (.pushFailed sublist.domain sublist.subscription_id)⟩
    | .ok _ =>
      match update_table store sublist.subscription_id
          ⟨new_expire, env.lu, new_oauth, new_refresh⟩ with
      | .error e =>
        ⟨store, [ev], [], some (.dbFailed sublist.domain sublist.subscription_id e)⟩
      | .ok store2 =>
        let r := renewSubs env new_expire new_oauth new_refresh rest store2
        ⟨r.store, ev :: r.events, store2 :: r.trace, r.err⟩

/-- One iteration of the per-domain loop (`main.py:68-106`): load the
domain's rows, refresh the token with the first row's refresh token
(no validation that the rows agree, see the comment at `main.py:74`),
then renew every loaded row. -/
def renewDomain (env : Env) (new_expire : String)
    (store : List Subscription) (dom : String) : CycleResult :=
  match read_from_table store dom with
  | [] => ⟨store, [], [], some (.indexError dom)⟩
  | first :: restSubs =>
    let ev := Event.refreshCall dom first.refresh_token
    match env.refresh_access_token first.refresh_token with
    | .error _ => ⟨store, [ev], [], some (.refreshFailed dom)⟩
    | .ok new_token_data =>
      match new_token_data.access_token with
      | none => ⟨store, [ev], [], some (.noAccessToken dom)⟩
      | some new_oauth_token =>
        if new_oauth_token.isEmpty then
          ⟨store, [ev], [], some (.noAccessToken dom)⟩
        else
          let r := renewSubs env new_expire new_oauth_token
            new_token_data.refresh_token (first :: restSubs) store
          ⟨r.store, ev :: r.events, r.trace, r.err⟩

/-- The per-domain loop (`main.py:68`): sequential; an exception in one
domain propagates immediately, so later domains are not reached. -/
def renewDomains (env : Env) (new_expire : String) :
    List String → List Subscription → CycleResult
  | [], store => ⟨store, [], [], none⟩
  | dom :: rest, store =>
    let r := renewDomain env new_expire store dom
    match r.err with
    | some e => ⟨r.store, r.events, r.trace, some e⟩
    | none =>
      let r2 := renewDomains env new_expire rest r.store
      ⟨r2.store, r.events ++ r2.events, r.trace ++ r2.trace, r2.err⟩

/-- `SubscriptionService.check_and_update_subscriptions` (`main.py:46-109`). -/
def check_and_update_subscriptions (env : Env) (store : List Subscription) :
    CycleResult :=
  let subscriptions := (fetch_expiring_subscriptions store env.renewal_threshold).1
  let expiring_domain := uniqueDomains (subscriptions.map (fun d => d.domain))
  if expiring_domain.isEmpty then ⟨store, [], [], none⟩
  else
    let new_expire := render env.new_expire_dt
    renewDomains env new_expire expiring_domain store

/-- Outcome of running the service loop of `SubscriptionService.start`
(`main.py:34-37`) for a bounded number of scheduled ticks. -/
structure LoopResult where
  store : List Subscription
  cycles_run : Nat
  err : Option EngineError
deriving DecidableEq, Repr

/-- The `while True` loop of `SubscriptionService.start` (`main.py:34-37`),
one `Env` per scheduled tick (finite fuel for the embedding).  The body
`await self.check_and_update_subscriptions()` is not wrapped in any
try/except, so a raised exception ends the loop. -/
def renewalLoop : List Env → List Subscription → LoopResult
  | [], store => ⟨store, 0, none⟩
  | env :: rest, store =>
    let r := check_and_update_subscriptions env store
    match r.err with
    | some e => ⟨r.store, 1, some e⟩
    | none =>
      let l := renewalLoop rest r.store
      ⟨l.store, l.cycles_run + 1, l.err⟩

/-- Row lookup by `subscription_id`. -/
def findRow (store : List Subscription) (sid : String) : Option Subscription :=
  store.find? (fun r => r.subscription_id == sid)

/-- The row image of one renewal write: all of `expires`, `last_updated`,
`oauth_token`, `refresh_token` replaced together (`main.py:94-106`). -/
def renewRow (new_expire lu new_oauth new_refresh : String)
    (r : Subscription) : Subscription :=
  { r with expires := new_expire, last_updated := some lu,
           oauth_token := new_oauth, refresh_token := new_refresh }

/-- `r` is `orig` with the credential/expiry triple (plus `last_updated`)
replaced in one step by the cycle's values: the shape every committed
renewal write has. -/
def TripleWritten (orig r : Subscription) (new_expire lu : String) : Prop :=
  ∃ ot rt, r = renewRow new_expire lu ot rt orig

/-- Pointwise store invariant: same length as the original store, and
every row is either its original value or a whole-triple rewrite of it. -/
def TripleInv (new_expire lu : String)
    (orig st : List Subscription) : Prop :=
  ∃ h : st.length = orig.length,
    ∀ i (hi : i < st.length),
      st.get ⟨i, hi⟩ = orig.get ⟨i, h ▸ hi⟩ ∨
        TripleWritten (orig.get ⟨i, h ▸ hi⟩) (st.get ⟨i, hi⟩) new_expire lu

/-- Counts refresh calls made for a given domain. -/
def isRefreshFor (d : String) : Event → Bool
  | .refreshCall dom _ => dom == d
  | _ => false

/-- Recognizes a remote expiry push for a given subscription id. -/
def isPushFor (sid : String) : Event → Bool
  | .pushCall _ s _ _ => s == sid
  | _ => false

/-- Recognizes a remote expiry push for a row of a given domain. -/
def isPushDom (d : String) : Event → Bool
  | .pushCall _ _ _ dom => dom == d
  | _ => false

/-- The store transition of one committed renewal write: every row
matching the subscription id gets the whole renewal triple. -/
def applyUpd (ne lu no rt : String) (store : List Subscription)
    (sid : String) : List Subscription :=
  store.map (fun r =>
    if r.subscription_id == sid then renewRow ne lu no rt r else r)

/-! ## Creation flow (`SubscriptionService.setup_new_subscription`) -/

/-- The inbound creation request (`models.py:29-37`). -/
structure SubscriptionRequest where
  domain : String
  model : String
  post_url : String
  user : String
  username : String
  password : String
deriving DecidableEq, Repr

/-- The JSON body of a successful `create_subscription` response, as read
by `main.py:136,154-155`: the keys `subscription_id`, `expires_at` and
`subscription-expires-datetime` may each be absent. -/
structure CreateResponse where
  subscription_id : Option String
  expires_at : Option String
  sub_expires_datetime : Option String
deriving DecidableEq, Repr

/-- HTTP-level failures of `setup_new_subscription` (`main.py:111-178`). -/
inductive SetupError
  /-- `get_token` raised: 401 (`main.py:116-118`). -/
  | authFailed
  /-- No truthy access token in the response: 500 (`main.py:119-124`). -/
  | noAccessToken
  /-- `create_subscription` raised: 500 (`main.py:144-146`). -/
  | createFailed
  /-- The creation response carried no truthy subscription id: 500
  (`main.py:136-138`). -/
  | noSubscriptionId
  /-- The upsert raised: 500 (`main.py:166-171`). -/
  | dbUpsertFailed
deriving DecidableEq, Repr

/-- `db_utils.update_table` as called by `setup_new_subscription`
(`main.py:148-165`).  The `update_data` dict stores the refresh token
under the key `"renewal_token"`, which is not a mapped column of
`Subscriptions` (`models.py` has `refresh_token`):
* insert branch (`db_utils.py:93-97`): `Subscriptions(**data)` raises
  `TypeError: invalid keyword argument` — the session layer turns this
  into an HTTP 500;
* update branch (`db_utils.py:102-106`): `setattr(row, "renewal_token", v)`
  sets a transient attribute, so the `refresh_token` column is silently
  left unchanged; a missing `expires` value would make the non-null
  `expires` column fail the commit. -/
def upsert_new_subscription (store : List Subscription)
    (req : SubscriptionRequest) (sid : String) (expires : Option String)
    (access_token : String) (lu : String) :
    Except Unit (List Subscription) :=
  if store.any (fun r => r.subscription_id == sid) then
    match expires with
    | some e =>
      .ok (store.map (fun r =>
        if r.subscription_id == sid then
          { r with domain := req.domain, model := req.model, expires := e,
                   post_url := req.post_url, user := req.user,
                   oauth_token := access_token, last_updated := some lu }
        else r))
    | none => .error ()
  else .error ()

/-- Python truthiness of an optional string (`if not access_token`,
`if not subscription_id`): `None` and `""` are falsy. -/
def truthy : Option String → Bool
  | none => false
  | some s => !s.isEmpty

/-- `SubscriptionService.setup_new_subscription` (`main.py:111-178`):
exchange credentials for a token, create the remote subscription, then
upsert the local record.  The two remote calls are oracle inputs.  On
success returns the new store, the subscription id and the reported
expiry. -/
def setup_new_subscription (store : List Subscription)
    (req : SubscriptionRequest)
    (get_token_result : Except Unit TokenData)
    (create_result : Except Unit CreateResponse)
    (lu : String) :
    Except SetupError (List Subscription × String × Option String) :=
  match get_token_result with
  | .error _ => .error .authFailed
  | .ok token_dict =>
    if !truthy token_dict.access_token then .error .noAccessToken
    else
      let access_token := token_dict.access_token.getD ""
      match create_result with
      | .error _ => .error .createFailed
      | .ok subscription_response =>
        match subscription_response.subscription_id with
        | none => .error .noSubscriptionId
        | some subscription_id =>
          let expires := (subscription_response.expires_at).orElse
            (fun _ => subscription_response.sub_expires_datetime)
          match upsert_new_subscription store req subscription_id expires
              access_token lu with
          | .error _ => .error .dbUpsertFailed
          | .ok store2 => .ok (store2, subscription_id, expires)


/-! ## Concrete fixtures used by counterexamples and witnesses -/

/-- A subscription row with fixed secondary fields. -/
def exRow (idn : Nat) (dom sid exp rt : String) : Subscription :=
  { id := idn, last_updated := none, domain := dom, model := "presence",
    expires := exp, subscription_id := sid,
    post_url := "https://cb.example/hook", user := "u",
    oauth_token := "old-oauth", refresh_token := rt }

/-- `now + RENEWAL_INTERVAL` of the example cycle. -/
def exThreshold : DT := ⟨2025, 1, 1, 1, 0, 0⟩

/-- `now + SUBSCRIPTION_DURATION` of the example cycle (one day later,
so the configured cadence of one hour is shorter than the duration). -/
def exNewExpire : DT := ⟨2025, 1, 2, 0, 0, 0⟩

/-- Rendered write clock of the example cycle. -/
def exLu : String := "2025-01-01 00:00:10"

/-- Example environment builder with the fixed example datetimes. -/
def mkEnv (rf : String → Except Unit TokenData)
    (pf : String → String → String → String → Except Unit Unit) : Env :=
  ⟨rf, pf, exThreshold, exNewExpire, exLu⟩

/-- Remote side where every call succeeds. -/
def exEnvOk : Env :=
  mkEnv (fun _ => .ok ⟨some "new-at", some "new-rt"⟩) (fun _ _ _ _ => .ok ())

/-- Remote side where the token refresh for refresh token `ra` fails. -/
def exEnvRefreshFailRa : Env :=
  mkEnv (fun t => if t == "ra" then .error () else
      .ok ⟨some "new-at", some "new-rt"⟩)
    (fun _ _ _ _ => .ok ())

/-- Remote side where every token refresh fails. -/
def exEnvRefreshFailAll : Env :=
  mkEnv (fun _ => .error ()) (fun _ _ _ _ => .ok ())

/-- Remote side where the expiry push for subscription `s2` fails. -/
def exEnvPushFailS2 : Env :=
  mkEnv (fun _ => .ok ⟨some "new-at", some "new-rt"⟩)
    (fun _ sid _ _ => if sid == "s2" then .error () else .ok ())

/-- Two expiring subscriptions in two different domains. -/
def exStoreC1 : List Subscription :=
  [exRow 1 "a" "s1" "2025-01-01 00:00:00" "ra",
   exRow 2 "b" "s2" "2025-01-01 00:00:00" "rb"]

/-- Three expiring subscriptions sharing one domain and refresh token. -/
def exStoreC2 : List Subscription :=
  [exRow 1 "a" "s1" "2025-01-01 00:00:00" "r",
   exRow 2 "a" "s2" "2025-01-01 00:00:00" "r",
   exRow 3 "a" "s3" "2025-01-01 00:00:00" "r"]

/-- Two expiring subscriptions of one domain whose refresh tokens diverge. -/
def exStoreC3 : List Subscription :=
  [exRow 1 "a" "s1" "2025-01-01 00:00:00" "r1",
   exRow 2 "a" "s2" "2025-01-01 00:00:00" "r2"]

/-- One expiring subscription plus a far-future sibling in the same domain. -/
def exStoreC4 : List Subscription :=
  [exRow 1 "a" "s1" "2025-01-01 00:00:00" "r",
   exRow 2 "a" "s2" "2099-01-01 00:00:00" "r"]

/-- An example creation request. -/
def exReq : SubscriptionRequest :=
  ⟨"a", "presence", "https://cb.example/hook", "u", "apiuser", "pw"⟩

/-! ## Order properties of the fixed timestamp format -/

theorem digitChar_lt_iff :
    ∀ a < 10, ∀ b < 10, (digitChar a < digitChar b ↔ a < b) := by decide

theorem digitChar_eq_iff :
    ∀ a < 10, ∀ b < 10, (digitChar a = digitChar b ↔ a = b) := by decide

theorem lexLt_cons (a b : Char) (as bs : List Char) :
    lexLt (a :: as) (b :: bs) = true ↔ (a < b ∨ (a = b ∧ lexLt as bs = true)) := by
  simp [lexLt, Bool.or_eq_true, Bool.and_eq_true, decide_eq_true_iff, beq_iff_eq]

theorem lexLt_cons_same (c : Char) (as bs : List Char) :
    lexLt (c :: as) (c :: bs) = true ↔ lexLt as bs = true := by
  rw [lexLt_cons]
  simp [lt_irrefl]

theorem lexLt_append {as bs cs ds : List Char}
    (h : as.length = bs.length) :
    lexLt (as ++ cs) (bs ++ ds) = true ↔
      (lexLt as bs = true ∨ (as = bs ∧ lexLt cs ds = true)) := by
  induction as generalizing bs with
  | nil =>
    cases bs with
    | nil => simp [lexLt]
    | cons b bs => simp at h
  | cons a as ih =>
    cases bs with
    | nil => simp at h
    | cons b bs =>
      simp only [List.cons_append]
      rw [lexLt_cons, lexLt_cons, ih (by simpa using h)]
      simp only [List.cons.injEq]
      tauto

theorem render_data (t : DT) : (render t).data =
    fmt4 t.year ++ '-' :: (fmt2 t.month ++ '-' :: (fmt2 t.day ++ ' ' ::
      (fmt2 t.hour ++ ':' :: (fmt2 t.minute ++ ':' :: fmt2 t.second)))) := rfl

theorem fmt2_lt_iff :
    ∀ a < 100, ∀ b < 100, (lexLt (fmt2 a) (fmt2 b) = true ↔ a < b) := by
  intro a ha b hb
  simp only [fmt2]
  rw [lexLt_cons]
  rw [digitChar_lt_iff _ (by omega) _ (by omega),
    digitChar_eq_iff _ (by omega) _ (by omega)]
  have h2 : lexLt [digitChar (a % 10)] [digitChar (b % 10)] = true ↔
      digitChar (a % 10) < digitChar (b % 10) := by
    rw [lexLt_cons]
    simp [lexLt]
  rw [h2, digitChar_lt_iff _ (by omega) _ (by omega)]
  omega

theorem fmt2_eq_iff :
    ∀ a < 100, ∀ b < 100, (fmt2 a = fmt2 b ↔ a = b) := by
  intro a ha b hb
  simp only [fmt2, List.cons.injEq, and_true]
  rw [digitChar_eq_iff _ (by omega) _ (by omega),
    digitChar_eq_iff _ (by omega) _ (by omega)]
  omega

theorem fmt2_length (n : Nat) : (fmt2 n).length = 2 := rfl

theorem fmt4_lt_iff :
    ∀ a < 10000, ∀ b < 10000, (lexLt (fmt4 a) (fmt4 b) = true ↔ a < b) := by
  intro a ha b hb
  simp only [fmt4]
  rw [lexLt_append (by simp [fmt2_length])]
  rw [fmt2_lt_iff _ (by omega) _ (by omega),
    fmt2_eq_iff _ (by omega) _ (by omega),
    fmt2_lt_iff _ (by omega) _ (by omega)]
  omega

theorem fmt4_eq_iff :
    ∀ a < 10000, ∀ b < 10000, (fmt4 a = fmt4 b ↔ a = b) := by
  intro a ha b hb
  simp only [fmt4]
  constructor
  · intro h
    have := List.append_inj h (by simp [fmt2_length])
    rw [fmt2_eq_iff _ (by omega) _ (by omega),
      fmt2_eq_iff _ (by omega) _ (by omega)] at this
    omega
  · intro h; rw [h]

theorem fmt4_length (n : Nat) : (fmt4 n).length = 4 := rfl

theorem dtLt_iff (a b : DT) : DT.ltB a b = true ↔
    (a.year < b.year ∨ (a.year = b.year ∧ (a.month < b.month ∨ (a.month = b.month ∧
      (a.day < b.day ∨ (a.day = b.day ∧ (a.hour < b.hour ∨ (a.hour = b.hour ∧
        (a.minute < b.minute ∨ (a.minute = b.minute ∧
          a.second < b.second)))))))))) := by
  simp [DT.ltB, Bool.or_eq_true, Bool.and_eq_true, decide_eq_true_iff, beq_iff_eq]

theorem render_lt_iff (t1 t2 : DT) (h1 : t1.Valid) (h2 : t2.Valid) :
    strLt (render t1) (render t2) = true ↔ DT.ltB t1 t2 = true := by
  obtain ⟨hy1, hy1b, hmo1, hd1, hh1, hmi1, hs1⟩ := h1
  obtain ⟨hy2, hy2b, hmo2, hd2, hh2, hmi2, hs2⟩ := h2
  show lexLt (render t1).data (render t2).data = true ↔ _
  rw [render_data, render_data]
  rw [lexLt_append (by simp [fmt4_length]),
    fmt4_lt_iff _ (by omega) _ (by omega),
    fmt4_eq_iff _ (by omega) _ (by omega),
    lexLt_cons_same,
    lexLt_append (by simp [fmt2_length]),
    fmt2_lt_iff _ (by omega) _ (by omega),
    fmt2_eq_iff _ (by omega) _ (by omega),
    lexLt_cons_same,
    lexLt_append (by simp [fmt2_length]),
    fmt2_lt_iff _ (by omega) _ (by omega),
    fmt2_eq_iff _ (by omega) _ (by omega),
    lexLt_cons_same,
    lexLt_append (by simp [fmt2_length]),
    fmt2_lt_iff _ (by omega) _ (by omega),
    fmt2_eq_iff _ (by omega) _ (by omega),
    lexLt_cons_same,
    lexLt_append (by simp [fmt2_length]),
    fmt2_lt_iff _ (by omega) _ (by omega),
    fmt2_eq_iff _ (by omega) _ (by omega),
    lexLt_cons_same,
    fmt2_lt_iff _ (by omega) _ (by omega),
    dtLt_iff]

theorem render_eq_iff (t1 t2 : DT) (h1 : t1.Valid) (h2 : t2.Valid) :
    render t1 = render t2 ↔ t1 = t2 := by
  obtain ⟨hy1, hy1b, hmo1, hd1, hh1, hmi1, hs1⟩ := h1
  obtain ⟨hy2, hy2b, hmo2, hd2, hh2, hmi2, hs2⟩ := h2
  constructor
  · intro h
    have hdata : (render t1).data = (render t2).data := by rw [h]
    rw [render_data, render_data] at hdata
    obtain ⟨e1, e2⟩ := List.append_inj hdata (by simp [fmt4_length])
    rw [fmt4_eq_iff _ (by omega) _ (by omega)] at e1
    injection e2 with _ e2
    obtain ⟨e3, e4⟩ := List.append_inj e2 (by simp [fmt2_length])
    rw [fmt2_eq_iff _ (by omega) _ (by omega)] at e3
    injection e4 with _ e4
    obtain ⟨e5, e6⟩ := List.append_inj e4 (by simp [fmt2_length])
    rw [fmt2_eq_iff _ (by omega) _ (by omega)] at e5
    injection e6 with _ e6
    obtain ⟨e7, e8⟩ := List.append_inj e6 (by simp [fmt2_length])
    rw [fmt2_eq_iff _ (by omega) _ (by omega)] at e7
    injection e8 with _ e8
    obtain ⟨e9, e10⟩ := List.append_inj e8 (by simp [fmt2_length])
    rw [fmt2_eq_iff _ (by omega) _ (by omega)] at e9
    injection e10 with _ e10
    rw [fmt2_eq_iff _ (by omega) _ (by omega)] at e10
    cases t1; cases t2
    simp_all
  · intro h; rw [h]

theorem strLe_iff (s t : String) :
    strLe s t = true ↔ (s = t ∨ strLt s t = true) := by
  simp [strLe, Bool.or_eq_true, beq_iff_eq]

theorem dtLe_iff (a b : DT) :
    DT.leB a b = true ↔ (a = b ∨ DT.ltB a b = true) := by
  simp [DT.leB, Bool.or_eq_true, beq_iff_eq]

theorem render_le_iff (t1 t2 : DT) (h1 : t1.Valid) (h2 : t2.Valid) :
    strLe (render t1) (render t2) = true ↔ DT.leB t1 t2 = true := by
  rw [strLe_iff, dtLe_iff, render_lt_iff t1 t2 h1 h2, render_eq_iff t1 t2 h1 h2]

theorem dtLt_trans {a b c : DT} (h1 : DT.ltB a b = true)
    (h2 : DT.ltB b c = true) : DT.ltB a c = true := by
  rw [dtLt_iff] at *
  omega

/-! ## Store lookup toolkit -/

theorem findRow_some {st : List Subscription} {sid : String} {r : Subscription}
    (h : findRow st sid = some r) : r ∈ st ∧ r.subscription_id = sid := by
  refine ⟨List.mem_of_find?_eq_some h, ?_⟩
  have := List.find?_some h
  simpa using this

theorem findRow_mem {st : List Subscription} {x : Subscription}
    (hnd : (st.map (fun r => r.subscription_id)).Nodup) (hx : x ∈ st) :
    findRow st x.subscription_id = some x := by
  induction st with
  | nil => cases hx
  | cons a st ih =>
    simp only [List.map_cons, List.nodup_cons] at hnd
    rcases List.mem_cons.mp hx with rfl | hx2
    · simp [findRow, List.find?]
    · have hne : (a.subscription_id == x.subscription_id) = false := by
        simp only [beq_eq_false_iff_ne, ne_eq]
        intro he
        exact hnd.1 (he ▸ List.mem_map_of_mem (fun r => r.subscription_id) hx2)
      rw [findRow, List.find?_cons, hne]
      exact ih hnd.2 hx2

theorem findRow_any {st : List Subscription} {sid : String} {r : Subscription}
    (h : findRow st sid = some r) :
    (st.any (fun x => x.subscription_id == sid)) = true := by
  obtain ⟨hm, he⟩ := findRow_some h
  exact List.any_eq_true.mpr ⟨r, hm, by simp [he]⟩

theorem update_table_ok {st st2 : List Subscription} {sid : String}
    {u : RenewalUpdate} (h : update_table st sid u = .ok st2) :
    ∃ rt, u.refresh_token = some rt ∧
      st2 = applyUpd u.expires u.last_updated u.oauth_token rt st sid := by
  unfold update_table at h
  split at h
  · cases hrt : u.refresh_token with
    | none => rw [hrt] at h; cases h
    | some rt =>
      rw [hrt] at h
      injection h with h
      exact ⟨rt, rfl, by rw [← h]; rfl⟩
  · cases h

theorem applyUpd_map_sid (ne lu no rt : String) (st : List Subscription)
    (sid : String) :
    (applyUpd ne lu no rt st sid).map (fun r => r.subscription_id) =
      st.map (fun r => r.subscription_id) := by
  induction st with
  | nil => rfl
  | cons a st ih =>
    simp only [applyUpd, List.map_cons] at *
    rw [ih]
    by_cases h : (a.subscription_id == sid) = true
    · simp [h, renewRow]
    · simp [Bool.not_eq_true] at h
      simp [h]

theorem findRow_applyUpd (ne lu no rt : String) (st : List Subscription)
    (sid sid2 : String) :
    findRow (applyUpd ne lu no rt st sid2) sid =
      (findRow st sid).map (fun r =>
        if r.subscription_id == sid2 then renewRow ne lu no rt r else r) := by
  induction st with
  | nil => rfl
  | cons a st ih =>
    simp only [applyUpd, List.map_cons, findRow, List.find?_cons] at *
    by_cases h2 : (a.subscription_id == sid2) = true
    · have hs : (renewRow ne lu no rt a).subscription_id = a.subscription_id := rfl
      rw [if_pos h2]
      by_cases h1 : (a.subscription_id == sid) = true
      · rw [show ((renewRow ne lu no rt a).subscription_id == sid) = true by
          rw [hs]; exact h1, h1]
        have h2' : a.subscription_id = sid2 := by simpa [beq_iff_eq] using h2
        simp [h2']
      · rw [Bool.not_eq_true] at h1
        rw [show ((renewRow ne lu no rt a).subscription_id == sid) = false by
          rw [hs]; exact h1, h1]
        exact ih
    · rw [Bool.not_eq_true] at h2
      rw [if_neg (by simp [h2])]
      by_cases h1 : (a.subscription_id == sid) = true
      · rw [h1]
        have h2' : ¬ a.subscription_id = sid2 := by simpa [beq_iff_eq] using h2
        simp [h2']
      · rw [Bool.not_eq_true] at h1
        rw [h1]
        exact ih

theorem renewRow_renewRow (ne lu no rt no2 rt2 : String) (r : Subscription) :
    renewRow ne lu no rt (renewRow ne lu no2 rt2 r) = renewRow ne lu no rt r := rfl

theorem applyUpd_inv {ne lu : String} {orig st : List Subscription}
    (no rt sid : String) (h : TripleInv ne lu orig st) :
    TripleInv ne lu orig (applyUpd ne lu no rt st sid) := by
  obtain ⟨hlen, hpt⟩ := h
  have hlen2 : (applyUpd ne lu no rt st sid).length = orig.length := by
    simp [applyUpd, hlen]
  refine ⟨hlen2, ?_⟩
  intro i hi
  have hi' : i < st.length := by simpa [applyUpd] using hi
  have hget : (applyUpd ne lu no rt st sid).get ⟨i, hi⟩ =
      (fun r => if r.subscription_id == sid then renewRow ne lu no rt r else r)
        (st.get ⟨i, hi'⟩) := by
    simp [applyUpd]
  rw [hget]
  dsimp only
  by_cases hc : ((st.get ⟨i, hi'⟩).subscription_id == sid) = true
  · rw [if_pos hc]
    rcases hpt i hi' with he | ⟨ot2, rt2, he⟩
    · right
      exact ⟨no, rt, by rw [he]⟩
    · right
      exact ⟨no, rt, by rw [he, renewRow_renewRow]⟩
  · rw [Bool.not_eq_true] at hc
    rw [if_neg (by simpa [beq_eq_false_iff_ne] using hc)]
    exact hpt i hi'

/-! ## Behaviour of the per-subscription renewal loop (`main.py:85-106`) -/

theorem renewSubs_no_refresh (env : Env) (ne no : String) (nr : Option String)
    (d : String) :
    ∀ subs st,
      ((renewSubs env ne no nr subs st).events).countP (isRefreshFor d) = 0 := by
  intro subs
  induction subs with
  | nil => intro st; simp [renewSubs]
  | cons s rest ih =>
    intro st
    rcases hp : env.update_subscription ne s.subscription_id no s.domain with e | v
    · simp [renewSubs, hp, isRefreshFor]
    · rcases hu : update_table st s.subscription_id ⟨ne, env.lu, no, nr⟩ with e | st2
      · simp [renewSubs, hp, hu, isRefreshFor]
      · simp [renewSubs, hp, hu, isRefreshFor, ih]

theorem renewSubs_events (env : Env) (ne no : String) (nr : Option String) :
    ∀ subs st ev, ev ∈ (renewSubs env ne no nr subs st).events →
      ∃ x ∈ subs, ev = Event.pushCall ne x.subscription_id no x.domain := by
  intro subs
  induction subs with
  | nil => intro st ev hev; simp [renewSubs] at hev
  | cons s rest ih =>
    intro st ev hev
    rcases hp : env.update_subscription ne s.subscription_id no s.domain with e | v
    · simp [renewSubs, hp] at hev
      exact ⟨s, by simp, hev⟩
    · rcases hu : update_table st s.subscription_id ⟨ne, env.lu, no, nr⟩ with e | st2
      · simp [renewSubs, hp, hu] at hev
        exact ⟨s, by simp, hev⟩
      · simp only [renewSubs, hp, hu] at hev
        rcases List.mem_cons.mp hev with rfl | hev2
        · exact ⟨s, by simp, rfl⟩
        · obtain ⟨x, hx, hx2⟩ := ih st2 ev hev2
          exact ⟨x, by simp [hx], hx2⟩

theorem renewSubs_err_shape (env : Env) (ne no : String) (nr : Option String) :
    ∀ subs st d,
      (renewSubs env ne no nr subs st).err ≠ some (.refreshFailed d) ∧
      (renewSubs env ne no nr subs st).err ≠ some (.noAccessToken d) ∧
      (renewSubs env ne no nr subs st).err ≠ some (.indexError d) := by
  intro subs
  induction subs with
  | nil => intro st d; simp [renewSubs]
  | cons s rest ih =>
    intro st d
    rcases hp : env.update_subscription ne s.subscription_id no s.domain with e | v
    · simp [renewSubs, hp]
    · rcases hu : update_table st s.subscription_id ⟨ne, env.lu, no, nr⟩ with e | st2
      · simp [renewSubs, hp, hu]
      · simpa [renewSubs, hp, hu] using ih st2 d

theorem renewSubs_ok {env : Env} {ne no : String} {nr : Option String} :
    ∀ {subs st}, (∀ x ∈ subs, findRow st x.subscription_id = some x) →
    ((subs.map (fun r => r.subscription_id)).Nodup) →
    (renewSubs env ne no nr subs st).err = none →
    (∀ x ∈ subs, ∃ rt, nr = some rt ∧
        findRow (renewSubs env ne no nr subs st).store x.subscription_id =
          some (renewRow ne env.lu no rt x)) ∧
    (∀ sid, (∀ x ∈ subs, x.subscription_id ≠ sid) →
        findRow (renewSubs env ne no nr subs st).store sid = findRow st sid) ∧
    (renewSubs env ne no nr subs st).store.map (fun r => r.subscription_id) =
      st.map (fun r => r.subscription_id) := by
  intro subs
  induction subs with
  | nil =>
    intro st _ _ _
    refine ⟨by simp, ?_, ?_⟩ <;> simp [renewSubs]
  | cons s rest ih =>
    intro st hfind hnd hok
    rcases hp : env.update_subscription ne s.subscription_id no s.domain with e | v
    · simp [renewSubs, hp] at hok
    · rcases hu : update_table st s.subscription_id ⟨ne, env.lu, no, nr⟩ with e | st2
      · simp [renewSubs, hp, hu] at hok
      · obtain ⟨rt, hrt, hst2⟩ := update_table_ok hu
        simp only at hrt hst2
        have hres : renewSubs env ne no nr (s :: rest) st =
            ⟨(renewSubs env ne no nr rest st2).store,
             Event.pushCall ne s.subscription_id no s.domain ::
               (renewSubs env ne no nr rest st2).events,
             st2 :: (renewSubs env ne no nr rest st2).trace,
             (renewSubs env ne no nr rest st2).err⟩ := by
          simp [renewSubs, hp, hu]
        rw [hres] at hok ⊢
        simp only at hok ⊢
        simp only [List.map_cons, List.nodup_cons] at hnd
        have hnotin : s.subscription_id ∉ rest.map (fun r => r.subscription_id) :=
          hnd.1
        have hfind2 : ∀ x ∈ rest, findRow st2 x.subscription_id = some x := by
          intro x hx
          rw [hst2, findRow_applyUpd,
            hfind x (List.mem_cons_of_mem s hx)]
          have : (x.subscription_id == s.subscription_id) = false := by
            simp only [beq_eq_false_iff_ne, ne_eq]
            intro he
            exact hnotin (he ▸ List.mem_map_of_mem (fun r => r.subscription_id) hx)
          simp [beq_eq_false_iff_ne.mp this]
        obtain ⟨ih1, ih2, ih3⟩ := ih hfind2 hnd.2 hok
        refine ⟨?_, ?_, ?_⟩
        · intro x hx
          rcases List.mem_cons.mp hx with rfl | hx2
          · refine ⟨rt, hrt, ?_⟩
            rw [ih2 x.subscription_id ?hne]
            case hne =>
              intro y hy he
              exact hnotin (he ▸ List.mem_map_of_mem (fun r => r.subscription_id) hy)
            rw [hst2, findRow_applyUpd, hfind x (List.mem_cons_self x rest)]
            simp
          · exact ih1 x hx2
        · intro sid hsid
          rw [ih2 sid (fun x hx => hsid x (List.mem_cons_of_mem s hx))]
          rw [hst2, findRow_applyUpd]
          cases hfs : findRow st sid with
          | none => rfl
          | some r0 =>
            have hr0 : r0.subscription_id = sid := (findRow_some hfs).2
            have hne : (r0.subscription_id == s.subscription_id) = false := by
              simp only [beq_eq_false_iff_ne, ne_eq, hr0]
              intro he
              exact hsid s (List.mem_cons_self s rest) he.symm
            simp [beq_eq_false_iff_ne.mp hne]
        · rw [ih3, hst2, applyUpd_map_sid]

theorem renewSubs_pushFailed {env : Env} {ne no : String} {nr : Option String} :
    ∀ {subs st d sid}, (∀ x ∈ subs, findRow st x.subscription_id = some x) →
    ((subs.map (fun r => r.subscription_id)).Nodup) →
    (renewSubs env ne no nr subs st).err = some (.pushFailed d sid) →
    ∃ pre s post, subs = pre ++ s :: post ∧ s.subscription_id = sid ∧
      s.domain = d ∧
      (∀ x ∈ pre, ∃ rt, nr = some rt ∧
        findRow (renewSubs env ne no nr subs st).store x.subscription_id =
          some (renewRow ne env.lu no rt x)) ∧
      (∀ sid2, (∀ x ∈ pre, x.subscription_id ≠ sid2) →
        findRow (renewSubs env ne no nr subs st).store sid2 = findRow st sid2) ∧
      (renewSubs env ne no nr subs st).events =
        (pre ++ [s]).map
          (fun x => Event.pushCall ne x.subscription_id no x.domain) := by
  intro subs
  induction subs with
  | nil => intro st d sid _ _ herr; simp [renewSubs] at herr
  | cons s rest ih =>
    intro st d sid hfind hnd herr
    rcases hp : env.update_subscription ne s.subscription_id no s.domain with e | v
    · simp only [renewSubs, hp] at herr ⊢
      injection herr with herr
      injection herr with h1 h2
      refine ⟨[], s, rest, by simp, h2, h1, by simp, ?_, by simp⟩
      intro sid2 _
      trivial
    · rcases hu : update_table st s.subscription_id ⟨ne, env.lu, no, nr⟩ with e | st2
      · simp [renewSubs, hp, hu] at herr
      · obtain ⟨rt, hrt, hst2⟩ := update_table_ok hu
        simp only at hrt hst2
        have hres : renewSubs env ne no nr (s :: rest) st =
            ⟨(renewSubs env ne no nr rest st2).store,
             Event.pushCall ne s.subscription_id no s.domain ::
               (renewSubs env ne no nr rest st2).events,
             st2 :: (renewSubs env ne no nr rest st2).trace,
             (renewSubs env ne no nr rest st2).err⟩ := by
          simp [renewSubs, hp, hu]
        rw [hres] at herr ⊢
        simp only at herr ⊢
        simp only [List.map_cons, List.nodup_cons] at hnd
        have hnotin : s.subscription_id ∉ rest.map (fun r => r.subscription_id) :=
          hnd.1
        have hfind2 : ∀ x ∈ rest, findRow st2 x.subscription_id = some x := by
          intro x hx
          rw [hst2, findRow_applyUpd,
            hfind x (List.mem_cons_of_mem s hx)]
          have : (x.subscription_id == s.subscription_id) = false := by
            simp only [beq_eq_false_iff_ne, ne_eq]
            intro he
            exact hnotin (he ▸ List.mem_map_of_mem (fun r => r.subscription_id) hx)
          simp [beq_eq_false_iff_ne.mp this]
        obtain ⟨pre, sf, post, hsplit, hsid, hdom, hpre, hstable, hevents⟩ :=
          ih hfind2 hnd.2 herr
        refine ⟨s :: pre, sf, post, by simp [hsplit], hsid, hdom, ?_, ?_, ?_⟩
        · intro x hx
          rcases List.mem_cons.mp hx with rfl | hx2
          · refine ⟨rt, hrt, ?_⟩
            rw [hstable x.subscription_id ?hne]
            case hne =>
              intro y hy he
              have : y ∈ rest := by
                rw [hsplit]; exact List.mem_append_left _ hy
              exact hnotin
                (he ▸ List.mem_map_of_mem (fun r => r.subscription_id) this)
            rw [hst2, findRow_applyUpd, hfind x (List.mem_cons_self x rest)]
            simp
          · exact hpre x hx2
        · intro sid2 hsid2
          rw [hstable sid2 (fun x hx => hsid2 x (List.mem_cons_of_mem s hx))]
          rw [hst2, findRow_applyUpd]
          cases hfs : findRow st sid2 with
          | none => rfl
          | some r0 =>
            have hr0 : r0.subscription_id = sid2 := (findRow_some hfs).2
            have hne : (r0.subscription_id == s.subscription_id) = false := by
              simp only [beq_eq_false_iff_ne, ne_eq, hr0]
              intro he
              exact hsid2 s (List.mem_cons_self s pre) he.symm
            simp [beq_eq_false_iff_ne.mp hne]
        · rw [hevents]
          simp

theorem renewSubs_inv {env : Env} {ne no : String} {nr : Option String} :
    ∀ {subs st orig}, TripleInv ne env.lu orig st →
    (TripleInv ne env.lu orig (renewSubs env ne no nr subs st).store ∧
     ∀ st2 ∈ (renewSubs env ne no nr subs st).trace,
       TripleInv ne env.lu orig st2) := by
  intro subs
  induction subs with
  | nil => intro st orig h; refine ⟨by simpa [renewSubs] using h, ?_⟩
           intro st2 h2
           simp [renewSubs] at h2
  | cons s rest ih =>
    intro st orig h
    rcases hp : env.update_subscription ne s.subscription_id no s.domain with e | v
    · refine ⟨by simpa [renewSubs, hp] using h, ?_⟩
      intro st2 h2
      simp [renewSubs, hp] at h2
    · rcases hu : update_table st s.subscription_id ⟨ne, env.lu, no, nr⟩ with e | st2
      · refine ⟨by simpa [renewSubs, hp, hu] using h, ?_⟩
        intro st3 h3
        simp [renewSubs, hp, hu] at h3
      · obtain ⟨rt, hrt, hst2⟩ := update_table_ok hu
        simp only at hrt hst2
        have hinv2 : TripleInv ne env.lu orig st2 := by
          rw [hst2]; exact applyUpd_inv no rt s.subscription_id h
        obtain ⟨ihf, iht⟩ := @ih st2 orig hinv2
        constructor
        · simpa [renewSubs, hp, hu] using ihf
        · intro st3 h3
          simp only [renewSubs, hp, hu, List.mem_cons] at h3
          rcases h3 with rfl | h3
          · exact hinv2
          · exact iht st3 h3

/-! ## Behaviour of one domain renewal (`main.py:68-106`) -/

theorem filter_map_sid_nodup {st : List Subscription}
    (hnodup : (st.map (fun r => r.subscription_id)).Nodup)
    (p : Subscription → Bool) :
    ((st.filter p).map (fun r => r.subscription_id)).Nodup :=
  List.Nodup.sublist
    (List.Sublist.map (fun r => r.subscription_id) st.filter_sublist) hnodup

theorem findRow_eq_of_mem_of_sid {st : List Subscription}
    {x r0 : Subscription} {sid : String}
    (hnodup : (st.map (fun r => r.subscription_id)).Nodup)
    (hfr : findRow st sid = some r0) (hx : x ∈ st)
    (hsid : x.subscription_id = sid) : x = r0 := by
  have h1 := findRow_mem hnodup hx
  rw [hsid, hfr] at h1
  injection h1 with h2
  exact h2.symm

theorem renewDomain_ok {env : Env} {ne : String} {st : List Subscription}
    {dom : String}
    (hnodup : (st.map (fun r => r.subscription_id)).Nodup)
    (hok : (renewDomain env ne st dom).err = none) :
    (∀ sid r0, findRow st sid = some r0 →
      (r0.domain = dom → ∃ ot rt, findRow (renewDomain env ne st dom).store sid =
           some (renewRow ne env.lu ot rt r0)) ∧
      (r0.domain ≠ dom → findRow (renewDomain env ne st dom).store sid = some r0)) ∧
    (renewDomain env ne st dom).store.map (fun r => r.subscription_id) =
      st.map (fun r => r.subscription_id) ∧
    (∀ d2, (renewDomain env ne st dom).events.countP (isRefreshFor d2) =
      if dom = d2 then 1 else 0) := by
  rcases hread : read_from_table st dom with _ | ⟨first, restSubs⟩
  · simp [renewDomain, hread] at hok
  · rcases hrf : env.refresh_access_token first.refresh_token with e | td
    · simp [renewDomain, hread, hrf] at hok
    · rcases hat : td.access_token with _ | tok
      · simp [renewDomain, hread, hrf, hat] at hok
      · by_cases hemp : tok.isEmpty = true
        · simp [renewDomain, hread, hrf, hat, hemp] at hok
        · rw [Bool.not_eq_true] at hemp
          have hres : renewDomain env ne st dom =
              ⟨(renewSubs env ne tok td.refresh_token (first :: restSubs) st).store,
               Event.refreshCall dom first.refresh_token ::
                 (renewSubs env ne tok td.refresh_token (first :: restSubs) st).events,
               (renewSubs env ne tok td.refresh_token (first :: restSubs) st).trace,
               (renewSubs env ne tok td.refresh_token (first :: restSubs) st).err⟩ := by
            simp [renewDomain, hread, hrf, hat, hemp]
          rw [hres] at hok ⊢
          simp only at hok ⊢
          have hmemsubs : ∀ x ∈ first :: restSubs, x ∈ st ∧ x.domain = dom := by
            intro x hx
            rw [← hread] at hx
            have := List.mem_filter.mp hx
            exact ⟨this.1, by simpa using this.2⟩
          have hfind : ∀ x ∈ first :: restSubs,
              findRow st x.subscription_id = some x :=
            fun x hx => findRow_mem hnodup (hmemsubs x hx).1
          have hnd : ((first :: restSubs).map
              (fun r => r.subscription_id)).Nodup := by
            rw [← hread]
            exact filter_map_sid_nodup hnodup _
          obtain ⟨r1, r2, r3⟩ := renewSubs_ok hfind hnd hok
          refine ⟨?_, r3, ?_⟩
          · intro sid r0 hfr
            obtain ⟨hr0m, hr0s⟩ := findRow_some hfr
            constructor
            · intro hdomeq
              have hr0sub : r0 ∈ first :: restSubs := by
                rw [← hread]
                exact List.mem_filter.mpr ⟨hr0m, by simp [hdomeq]⟩
              obtain ⟨rt, hrt, hfr2⟩ := r1 r0 hr0sub
              exact ⟨tok, rt, by rw [← hr0s]; exact hfr2⟩
            · intro hdomne
              rw [r2 sid ?hall]
              · exact hfr
              case hall =>
                intro x hx he
                obtain ⟨hxm, hxd⟩ := hmemsubs x hx
                have := findRow_eq_of_mem_of_sid hnodup hfr hxm he
                exact hdomne (by rw [← this, hxd])
          · intro d2
            rw [List.countP_cons]
            rw [renewSubs_no_refresh]
            by_cases hd : dom = d2
            · simp [isRefreshFor, hd]
            · simp [isRefreshFor, hd]

theorem renewDomain_events_other {env : Env} {ne : String}
    {st : List Subscription} {dom d2 : String} (hne : d2 ≠ dom) :
    (renewDomain env ne st dom).events.countP (isRefreshFor d2) = 0 := by
  rcases hread : read_from_table st dom with _ | ⟨first, restSubs⟩
  · simp [renewDomain, hread]
  · rcases hrf : env.refresh_access_token first.refresh_token with e | td
    · simp [renewDomain, hread, hrf, isRefreshFor, hne.symm]
    · rcases hat : td.access_token with _ | tok
      · simp [renewDomain, hread, hrf, hat, isRefreshFor, hne.symm]
      · by_cases hemp : tok.isEmpty = true
        · simp [renewDomain, hread, hrf, hat, hemp, isRefreshFor, hne.symm]
        · rw [Bool.not_eq_true] at hemp
          have hc := renewSubs_no_refresh env ne tok td.refresh_token d2
            (first :: restSubs) st
          simp [renewDomain, hread, hrf, hat, hemp, List.countP_cons,
            isRefreshFor, hne.symm, hc]

theorem renewDomain_refreshFailed {env : Env} {ne : String}
    {st : List Subscription} {dom d : String}
    (herr : (renewDomain env ne st dom).err = some (.refreshFailed d) ∨
      (renewDomain env ne st dom).err = some (.noAccessToken d)) :
    d = dom ∧ (renewDomain env ne st dom).store = st ∧
    (∀ d2, (renewDomain env ne st dom).events.countP (isPushDom d2) = 0) := by
  rcases hread : read_from_table st dom with _ | ⟨first, restSubs⟩
  · rcases herr with h | h <;> simp [renewDomain, hread] at h
  · rcases hrf : env.refresh_access_token first.refresh_token with e | td
    · simp only [renewDomain, hread, hrf] at herr ⊢
      rcases herr with h | h
      · injection h with h
        injection h with h
        exact ⟨h.symm, trivial, fun d2 => by simp [isPushDom]⟩
      · injection h with h
        cases h
    · rcases hat : td.access_token with _ | tok
      · simp only [renewDomain, hread, hrf, hat] at herr ⊢
        rcases herr with h | h
        · injection h with h
          cases h
        · injection h with h
          injection h with h
          exact ⟨h.symm, trivial, fun d2 => by simp [isPushDom]⟩
      · by_cases hemp : tok.isEmpty = true
        · simp only [renewDomain, hread, hrf, hat, hemp, if_pos] at herr ⊢
          rcases herr with h | h
          · injection h with h
            cases h
          · injection h with h
            injection h with h
            exact ⟨h.symm, trivial, fun d2 => by simp [isPushDom]⟩
        · rw [Bool.not_eq_true] at hemp
          have hres : renewDomain env ne st dom =
              ⟨(renewSubs env ne tok td.refresh_token (first :: restSubs) st).store,
               Event.refreshCall dom first.refresh_token ::
                 (renewSubs env ne tok td.refresh_token (first :: restSubs) st).events,
               (renewSubs env ne tok td.refresh_token (first :: restSubs) st).trace,
               (renewSubs env ne tok td.refresh_token (first :: restSubs) st).err⟩ := by
            simp [renewDomain, hread, hrf, hat, hemp]
          rw [hres] at herr
          simp only at herr
          obtain ⟨hs1, hs2, hs3⟩ := renewSubs_err_shape env ne tok
            td.refresh_token (first :: restSubs) st d
          rcases herr with h | h
          · exact absurd h hs1
          · exact absurd h hs2

/-! ## Behaviour of the per-domain loop and the whole cycle -/

theorem renewDomain_pushDom_other {env : Env} {ne : String}
    {st : List Subscription} {dom d2 : String} (hne : d2 ≠ dom) :
    (renewDomain env ne st dom).events.countP (isPushDom d2) = 0 := by
  rcases hread : read_from_table st dom with _ | ⟨first, restSubs⟩
  · simp [renewDomain, hread]
  · rcases hrf : env.refresh_access_token first.refresh_token with e | td
    · simp [renewDomain, hread, hrf, isPushDom]
    · rcases hat : td.access_token with _ | tok
      · simp [renewDomain, hread, hrf, hat, isPushDom]
      · by_cases hemp : tok.isEmpty = true
        · simp [renewDomain, hread, hrf, hat, hemp, isPushDom]
        · rw [Bool.not_eq_true] at hemp
          have hz : (renewSubs env ne tok td.refresh_token
              (first :: restSubs) st).events.countP (isPushDom d2) = 0 := by
            rw [List.countP_eq_zero]
            intro ev hev
            obtain ⟨x, hx, rfl⟩ := renewSubs_events env ne tok
              td.refresh_token (first :: restSubs) st ev hev
            have hxd : x.domain = dom := by
              rw [← hread] at hx
              simpa using (List.mem_filter.mp hx).2
            simp [isPushDom, hxd, hne.symm]
          simp [renewDomain, hread, hrf, hat, hemp, List.countP_cons,
            isPushDom, hz]

theorem renewDomain_inv {env : Env} {ne : String}
    {st orig : List Subscription} {dom : String}
    (h : TripleInv ne env.lu orig st) :
    TripleInv ne env.lu orig (renewDomain env ne st dom).store ∧
    ∀ st2 ∈ (renewDomain env ne st dom).trace,
      TripleInv ne env.lu orig st2 := by
  rcases hread : read_from_table st dom with _ | ⟨first, restSubs⟩
  · refine ⟨by simpa [renewDomain, hread] using h, ?_⟩
    intro st2 h2
    simp [renewDomain, hread] at h2
  · rcases hrf : env.refresh_access_token first.refresh_token with e | td
    · refine ⟨by simpa [renewDomain, hread, hrf] using h, ?_⟩
      intro st2 h2
      simp [renewDomain, hread, hrf] at h2
    · rcases hat : td.access_token with _ | tok
      · refine ⟨by simpa [renewDomain, hread, hrf, hat] using h, ?_⟩
        intro st2 h2
        simp [renewDomain, hread, hrf, hat] at h2
      · by_cases hemp : tok.isEmpty = true
        · refine ⟨by simpa [renewDomain, hread, hrf, hat, hemp] using h, ?_⟩
          intro st2 h2
          simp [renewDomain, hread, hrf, hat, hemp] at h2
        · rw [Bool.not_eq_true] at hemp
          obtain ⟨h1, h2⟩ := @renewSubs_inv env ne tok td.refresh_token
            (first :: restSubs) st orig h
          constructor
          · simpa [renewDomain, hread, hrf, hat, hemp] using h1
          · intro st2 hst2
            simp only [renewDomain, hread, hrf, hat, hemp,
              Bool.false_eq_true, if_false] at hst2
            exact h2 st2 hst2

theorem renewDomains_err_mem {env : Env} {ne : String} :
    ∀ {doms : List String} {st : List Subscription} {d : String},
    ((renewDomains env ne doms st).err = some (.refreshFailed d) ∨
     (renewDomains env ne doms st).err = some (.noAccessToken d)) →
    d ∈ doms := by
  intro doms
  induction doms with
  | nil =>
    intro st d herr
    rcases herr with h | h <;> simp [renewDomains] at h
  | cons dom rest ih =>
    intro st d herr
    rcases hr : (renewDomain env ne st dom).err with _ | e
    · simp only [renewDomains, hr] at herr
      exact List.mem_cons_of_mem dom (ih herr)
    · simp only [renewDomains, hr] at herr
      have : d = dom := by
        refine (@renewDomain_refreshFailed env ne st dom d ?_).1
        rcases herr with h | h
        · left; rw [hr]; injection h with h; rw [h]
        · right; rw [hr]; injection h with h; rw [h]
      rw [this]
      exact List.mem_cons_self dom rest

theorem renewDomains_ok {env : Env} {ne : String} :
    ∀ {doms : List String} {st : List Subscription},
    (st.map (fun r => r.subscription_id)).Nodup → doms.Nodup →
    (renewDomains env ne doms st).err = none →
    (∀ sid r0, findRow st sid = some r0 →
      (r0.domain ∈ doms → ∃ ot rt,
        findRow (renewDomains env ne doms st).store sid =
          some (renewRow ne env.lu ot rt r0)) ∧
      (r0.domain ∉ doms →
        findRow (renewDomains env ne doms st).store sid = some r0)) ∧
    ((renewDomains env ne doms st).store.map (fun r => r.subscription_id) =
      st.map (fun r => r.subscription_id)) ∧
    (∀ d2, (renewDomains env ne doms st).events.countP (isRefreshFor d2) =
      if d2 ∈ doms then 1 else 0) := by
  intro doms
  induction doms with
  | nil =>
    intro st _ _ _
    refine ⟨?_, by simp [renewDomains], ?_⟩
    · intro sid r0 hfr
      exact ⟨by simp, fun _ => by simpa [renewDomains] using hfr⟩
    · intro d2
      simp [renewDomains]
  | cons dom rest ih =>
    intro st hnodup hdnd hok
    rcases hr : (renewDomain env ne st dom).err with _ | e
    · simp only [renewDomains, hr] at hok ⊢
      simp only [List.nodup_cons] at hdnd
      obtain ⟨d1, dmap, dcount⟩ := renewDomain_ok hnodup hr
      have hnodup2 : ((renewDomain env ne st dom).store.map
          (fun r => r.subscription_id)).Nodup := by
        rw [dmap]; exact hnodup
      obtain ⟨i1, i2, i3⟩ := ih hnodup2 hdnd.2 hok
      refine ⟨?_, by rw [i2, dmap], ?_⟩
      · intro sid r0 hfr
        constructor
        · intro hmem
          rcases List.mem_cons.mp hmem with heq | hmem2
          · obtain ⟨ot, rt, hfr2⟩ := (d1 sid r0 hfr).1 heq
            refine ⟨ot, rt, ?_⟩
            have hdom2 : (renewRow ne env.lu ot rt r0).domain = r0.domain := rfl
            have hh := (i1 sid (renewRow ne env.lu ot rt r0) hfr2).2
            rw [hdom2] at hh
            exact hh (by rw [heq]; exact hdnd.1)
          · have hne : r0.domain ≠ dom := by
              intro he
              exact hdnd.1 (he ▸ hmem2)
            have hfr2 := (d1 sid r0 hfr).2 hne
            exact (i1 sid r0 hfr2).1 hmem2
        · intro hmem
          have hne : r0.domain ≠ dom := fun he => hmem (by rw [he]; simp)
          have hnr : r0.domain ∉ rest := fun hmm =>
            hmem (List.mem_cons_of_mem dom hmm)
          have hfr2 := (d1 sid r0 hfr).2 hne
          exact (i1 sid r0 hfr2).2 hnr
      · intro d2
        rw [List.countP_append, dcount d2, i3 d2]
        by_cases hd : d2 = dom
        · rw [hd]
          simp [hdnd.1]
        · simp [hd, Ne.symm hd]
    · simp [renewDomains, hr] at hok

theorem renewDomains_refreshFailed {env : Env} {ne : String} :
    ∀ {doms : List String} {st : List Subscription} {d : String},
    (st.map (fun r => r.subscription_id)).Nodup → doms.Nodup →
    ((renewDomains env ne doms st).err = some (.refreshFailed d) ∨
     (renewDomains env ne doms st).err = some (.noAccessToken d)) →
    (∀ sid r0, findRow st sid = some r0 → r0.domain = d →
       findRow (renewDomains env ne doms st).store sid = some r0) ∧
    (renewDomains env ne doms st).events.countP (isPushDom d) = 0 := by
  intro doms
  induction doms with
  | nil =>
    intro st d _ _ herr
    rcases herr with h | h <;> simp [renewDomains] at h
  | cons dom rest ih =>
    intro st d hnodup hdnd herr
    simp only [List.nodup_cons] at hdnd
    rcases hr : (renewDomain env ne st dom).err with _ | e
    · simp only [renewDomains, hr] at herr ⊢
      have hdmem : d ∈ rest := renewDomains_err_mem herr
      have hddom : d ≠ dom := fun he => hdnd.1 (he ▸ hdmem)
      obtain ⟨d1, dmap, _⟩ := renewDomain_ok hnodup hr
      have hnodup2 : ((renewDomain env ne st dom).store.map
          (fun r => r.subscription_id)).Nodup := by
        rw [dmap]; exact hnodup
      obtain ⟨i1, i2⟩ := ih hnodup2 hdnd.2 herr
      constructor
      · intro sid r0 hfr hd0
        have hfr2 := (d1 sid r0 hfr).2 (by rw [hd0]; exact hddom)
        exact i1 sid r0 hfr2 hd0
      · rw [List.countP_append, i2, renewDomain_pushDom_other hddom]
    · simp only [renewDomains, hr] at herr ⊢
      have herr2 : (renewDomain env ne st dom).err = some (.refreshFailed d) ∨
          (renewDomain env ne st dom).err = some (.noAccessToken d) := by
        rcases herr with h | h
        · left; rw [hr]; injection h with h; rw [h]
        · right; rw [hr]; injection h with h; rw [h]
      obtain ⟨hddom, hstore, hpush⟩ := renewDomain_refreshFailed herr2
      refine ⟨?_, hpush d⟩
      intro sid r0 hfr _
      rw [hstore]
      exact hfr

theorem renewDomains_err_prefix {env : Env} {ne : String} :
    ∀ {doms : List String} {st : List Subscription} {e : EngineError},
    (renewDomains env ne doms st).err = some e →
    ∃ pre dd post, doms = pre ++ dd :: post ∧
      ∀ d2, d2 ∉ pre → d2 ≠ dd →
        (renewDomains env ne doms st).events.countP (isRefreshFor d2) = 0 := by
  intro doms
  induction doms with
  | nil => intro st e herr; simp [renewDomains] at herr
  | cons dom rest ih =>
    intro st e herr
    rcases hr : (renewDomain env ne st dom).err with _ | e0
    · simp only [renewDomains, hr] at herr ⊢
      obtain ⟨pre, dd, post, hsplit, hcount⟩ := ih herr
      refine ⟨dom :: pre, dd, post, by rw [hsplit]; rfl, ?_⟩
      intro d2 hd2 hdd
      have hd2dom : d2 ≠ dom := fun he => hd2 (by rw [he]; simp)
      have hd2pre : d2 ∉ pre := fun hp =>
        hd2 (List.mem_cons_of_mem dom hp)
      rw [List.countP_append, renewDomain_events_other hd2dom,
        hcount d2 hd2pre hdd]
    · simp only [renewDomains, hr] at herr ⊢
      refine ⟨[], dom, rest, rfl, ?_⟩
      intro d2 _ hdd
      exact renewDomain_events_other hdd

theorem renewDomains_inv {env : Env} {ne : String} :
    ∀ {doms : List String} {st orig : List Subscription},
    TripleInv ne env.lu orig st →
    TripleInv ne env.lu orig (renewDomains env ne doms st).store ∧
    ∀ st2 ∈ (renewDomains env ne doms st).trace,
      TripleInv ne env.lu orig st2 := by
  intro doms
  induction doms with
  | nil =>
    intro st orig h
    refine ⟨by simpa [renewDomains] using h, ?_⟩
    intro st2 h2
    simp [renewDomains] at h2
  | cons dom rest ih =>
    intro st orig h
    obtain ⟨h1, h2⟩ := @renewDomain_inv env ne st orig dom h
    rcases hr : (renewDomain env ne st dom).err with _ | e
    · obtain ⟨i1, i2⟩ := ih h1
      constructor
      · simpa [renewDomains, hr] using i1
      · intro st2 hst2
        simp only [renewDomains, hr, List.mem_append] at hst2
        rcases hst2 with hst2 | hst2
        · exact h2 st2 hst2
        · exact i2 st2 hst2
    · constructor
      · simpa [renewDomains, hr] using h1
      · intro st2 hst2
        simp only [renewDomains, hr] at hst2
        exact h2 st2 hst2

theorem mem_uniqueDomains (d : String) :
    ∀ l, d ∈ uniqueDomains l ↔ d ∈ l := by
  intro l
  induction l with
  | nil => simp [uniqueDomains]
  | cons d0 ds ih =>
    simp only [uniqueDomains]
    by_cases h : d0 ∈ uniqueDomains ds
    · rw [if_pos h]
      rw [ih]
      constructor
      · intro h2; exact List.mem_cons_of_mem d0 h2
      · intro h2
        rcases List.mem_cons.mp h2 with rfl | h3
        · exact (ih).mp h
        · exact h3
    · rw [if_neg h]
      simp [ih]

theorem nodup_uniqueDomains : ∀ l : List String, (uniqueDomains l).Nodup := by
  intro l
  induction l with
  | nil => simp [uniqueDomains]
  | cons d0 ds ih =>
    simp only [uniqueDomains]
    by_cases h : d0 ∈ uniqueDomains ds
    · rw [if_pos h]; exact ih
    · rw [if_neg h]
      exact List.nodup_cons.mpr ⟨h, ih⟩

theorem cycle_eq (env : Env) (st : List Subscription) :
    check_and_update_subscriptions env st =
      renewDomains env (render env.new_expire_dt)
        (uniqueDomains
          (((fetch_expiring_subscriptions st env.renewal_threshold).1).map
            (fun d => d.domain))) st := by
  unfold check_and_update_subscriptions
  by_cases h : (uniqueDomains
      (((fetch_expiring_subscriptions st env.renewal_threshold).1).map
        (fun d => d.domain))).isEmpty = true
  · rw [if_pos h]
    rw [List.isEmpty_iff.mp h]
    rfl
  · rw [if_neg h]

/-! ## Remaining cycle-level helpers -/

theorem renewDomain_count_ok {env : Env} {ne : String}
    {st : List Subscription} {dom : String}
    (hok : (renewDomain env ne st dom).err = none) :
    ∀ d2, (renewDomain env ne st dom).events.countP (isRefreshFor d2) =
      if dom = d2 then 1 else 0 := by
  rcases hread : read_from_table st dom with _ | ⟨first, restSubs⟩
  · simp [renewDomain, hread] at hok
  · rcases hrf : env.refresh_access_token first.refresh_token with e | td
    · simp [renewDomain, hread, hrf] at hok
    · rcases hat : td.access_token with _ | tok
      · simp [renewDomain, hread, hrf, hat] at hok
      · by_cases hemp : tok.isEmpty = true
        · simp [renewDomain, hread, hrf, hat, hemp] at hok
        · rw [Bool.not_eq_true] at hemp
          intro d2
          have hz := renewSubs_no_refresh env ne tok td.refresh_token d2
            (first :: restSubs) st
          by_cases hd : dom = d2
          · subst hd
            simp [renewDomain, hread, hrf, hat, hemp, List.countP_cons,
              isRefreshFor, hz]
          · simp [renewDomain, hread, hrf, hat, hemp, List.countP_cons,
              isRefreshFor, hd, hz]

theorem renewDomains_count_ok {env : Env} {ne : String} :
    ∀ {doms : List String} {st : List Subscription}, doms.Nodup →
    (renewDomains env ne doms st).err = none →
    ∀ d2, (renewDomains env ne doms st).events.countP (isRefreshFor d2) =
      if d2 ∈ doms then 1 else 0 := by
  intro doms
  induction doms with
  | nil => intro st _ _ d2; simp [renewDomains]
  | cons dom rest ih =>
    intro st hdnd hok d2
    simp only [List.nodup_cons] at hdnd
    rcases hr : (renewDomain env ne st dom).err with _ | e
    · simp only [renewDomains, hr] at hok ⊢
      rw [List.countP_append, renewDomain_count_ok hr d2,
        ih hdnd.2 hok d2]
      by_cases hd : d2 = dom
      · rw [hd]
        simp [hdnd.1]
      · simp [hd, Ne.symm hd]
    · simp [renewDomains, hr] at hok

theorem TripleInv_refl (ne lu : String) (st : List Subscription) :
    TripleInv ne lu st st :=
  ⟨rfl, fun _ _ => Or.inl rfl⟩

theorem TripleInv_mem {ne lu : String} {orig st : List Subscription}
    (h : TripleInv ne lu orig st) :
    ∀ x ∈ st, x ∈ orig ∨ x.expires = ne := by
  obtain ⟨hlen, hpt⟩ := h
  intro x hx
  obtain ⟨i, hi⟩ := List.mem_iff_get.mp hx
  rcases hpt i.1 i.2 with he | ⟨ot, rt, he⟩
  · left
    rw [← hi, he]
    exact List.get_mem _ _ _
  · right
    rw [← hi, he]
    rfl

/-! ## The claims -/

/-- C1 (counterexample): with two expiring domains `a` and `b` and a
remote side whose token refresh for domain `a` fails, the cycle's
exception is not caught: no refresh call is ever made for the remaining
domain `b`, the store is untouched, and the service loop stops after
this first cycle even though a second tick was scheduled — refuting the
claim that the error is contained and every remaining domain is still
processed. -/
theorem c1_counterexample :
    (check_and_update_subscriptions exEnvRefreshFailRa exStoreC1).err =
      some (.refreshFailed "a") ∧
    (check_and_update_subscriptions exEnvRefreshFailRa exStoreC1).events.countP
      (isRefreshFor "b") = 0 ∧
    (check_and_update_subscriptions exEnvRefreshFailRa exStoreC1).store =
      exStoreC1 ∧
    renewalLoop [exEnvRefreshFailRa, exEnvRefreshFailRa] exStoreC1 =
      ⟨exStoreC1, 1, some (.refreshFailed "a")⟩ := by decide

/-- C1 (amended): an exception raised inside a renewal cycle propagates:
the per-domain loop aborts at the failing domain (domains after it in
the iteration order get no token-refresh call), the exception escapes
`check_and_update_subscriptions`, and the `while True` loop of `start`
ends after that cycle, running none of the remaining scheduled ticks. -/
theorem c1_error_propagates (env : Env) (envs : List Env)
    (store : List Subscription) (e : EngineError)
    (herr : (check_and_update_subscriptions env store).err = some e) :
    renewalLoop (env :: envs) store =
      ⟨(check_and_update_subscriptions env store).store, 1, some e⟩ ∧
    ∃ pre dd post,
      uniqueDomains
        (((fetch_expiring_subscriptions store env.renewal_threshold).1).map
          (fun d => d.domain)) = pre ++ dd :: post ∧
      ∀ d2 ∈ post,
        (check_and_update_subscriptions env store).events.countP
          (isRefreshFor d2) = 0 := by
  constructor
  · simp [renewalLoop, herr]
  · rw [cycle_eq] at herr ⊢
    obtain ⟨pre, dd, post, hsplit, hcount⟩ := renewDomains_err_prefix herr
    refine ⟨pre, dd, post, hsplit, ?_⟩
    intro d2 hd2
    have hnd := nodup_uniqueDomains
      (((fetch_expiring_subscriptions store env.renewal_threshold).1).map
        (fun d => d.domain))
    rw [hsplit] at hnd
    have hdisj := List.disjoint_of_nodup_append hnd
    have h1 : d2 ∉ pre := fun hp => hdisj hp (List.mem_cons_of_mem dd hd2)
    have h2 : d2 ≠ dd := by
      intro he
      have h3 := List.Nodup.of_append_right hnd
      rw [List.nodup_cons] at h3
      exact h3.1 (he ▸ hd2)
    exact hcount d2 h1 h2

/-- C1 (witness): the amended theorem applied to the concrete two-domain
store with a failing refresh for domain `a`. -/
theorem c1_error_propagates_witness :
    (check_and_update_subscriptions exEnvRefreshFailRa exStoreC1).err =
      some (.refreshFailed "a") ∧
    (renewalLoop (exEnvRefreshFailRa :: [exEnvRefreshFailRa]) exStoreC1 =
      ⟨(check_and_update_subscriptions exEnvRefreshFailRa exStoreC1).store, 1,
        some (.refreshFailed "a")⟩ ∧
    ∃ pre dd post,
      uniqueDomains
        (((fetch_expiring_subscriptions exStoreC1
            exEnvRefreshFailRa.renewal_threshold).1).map (fun d => d.domain)) =
        pre ++ dd :: post ∧
      ∀ d2 ∈ post,
        (check_and_update_subscriptions exEnvRefreshFailRa exStoreC1).events.countP
          (isRefreshFor d2) = 0) :=
  ⟨by decide, c1_error_propagates exEnvRefreshFailRa [exEnvRefreshFailRa]
    exStoreC1 (.refreshFailed "a") (by decide)⟩

/-- C2 (counterexample): three subscriptions `s1`, `s2`, `s3` share
domain `a`; the remote push for `s2` fails.  `s1` (pushed before the
failure) is updated, `s2` keeps its old record, but the remaining
sibling `s3` is neither pushed (zero push calls for it) nor updated, and
the whole cycle aborts — refuting the claim that the remaining siblings
are still pushed remotely and updated locally. -/
theorem c2_counterexample :
    (check_and_update_subscriptions exEnvPushFailS2 exStoreC2).err =
      some (.pushFailed "a" "s2") ∧
    findRow (check_and_update_subscriptions exEnvPushFailS2 exStoreC2).store
      "s1" = some (renewRow (render exNewExpire) exLu "new-at" "new-rt"
        (exRow 1 "a" "s1" "2025-01-01 00:00:00" "r")) ∧
    findRow (check_and_update_subscriptions exEnvPushFailS2 exStoreC2).store
      "s2" = some (exRow 2 "a" "s2" "2025-01-01 00:00:00" "r") ∧
    findRow (check_and_update_subscriptions exEnvPushFailS2 exStoreC2).store
      "s3" = some (exRow 3 "a" "s3" "2025-01-01 00:00:00" "r") ∧
    (check_and_update_subscriptions exEnvPushFailS2 exStoreC2).events.countP
      (isPushFor "s3") = 0 := by decide

/-- C2 (amended): when the remote expiry push fails for one subscription
of a domain, the exception aborts the domain renewal (and with it the
cycle): the failing subscription's local record is unchanged and its
push was attempted exactly once; siblings before it in the iteration
order were already pushed and updated; siblings after it are neither
pushed nor updated. -/
theorem c2_push_failure_skips_rest (env : Env) (ne : String)
    (st : List Subscription) (dom d sid : String)
    (hnodup : (st.map (fun r => r.subscription_id)).Nodup)
    (herr : (renewDomain env ne st dom).err = some (.pushFailed d sid)) :
    d = dom ∧ ∃ pre s post ot,
      read_from_table st dom = pre ++ s :: post ∧
      s.subscription_id = sid ∧
      findRow (renewDomain env ne st dom).store sid = some s ∧
      (renewDomain env ne st dom).events.countP (isPushFor sid) = 1 ∧
      (∀ x ∈ pre, ∃ rt,
        findRow (renewDomain env ne st dom).store x.subscription_id =
          some (renewRow ne env.lu ot rt x)) ∧
      (∀ x ∈ post,
        findRow (renewDomain env ne st dom).store x.subscription_id = some x ∧
        (renewDomain env ne st dom).events.countP
          (isPushFor x.subscription_id) = 0) := by
  rcases hread : read_from_table st dom with _ | ⟨first, restSubs⟩
  · simp [renewDomain, hread] at herr
  · rcases hrf : env.refresh_access_token first.refresh_token with e | td
    · simp [renewDomain, hread, hrf] at herr
    · rcases hat : td.access_token with _ | tok
      · simp [renewDomain, hread, hrf, hat] at herr
      · by_cases hemp : tok.isEmpty = true
        · simp [renewDomain, hread, hrf, hat, hemp] at herr
        · rw [Bool.not_eq_true] at hemp
          have hres : renewDomain env ne st dom =
              ⟨(renewSubs env ne tok td.refresh_token (first :: restSubs) st).store,
               Event.refreshCall dom first.refresh_token ::
                 (renewSubs env ne tok td.refresh_token (first :: restSubs) st).events,
               (renewSubs env ne tok td.refresh_token (first :: restSubs) st).trace,
               (renewSubs env ne tok td.refresh_token (first :: restSubs) st).err⟩ := by
            simp [renewDomain, hread, hrf, hat, hemp]
          rw [hres] at herr ⊢
          simp only at herr ⊢
          have hmemsubs : ∀ x ∈ first :: restSubs, x ∈ st ∧ x.domain = dom := by
            intro x hx
            rw [← hread] at hx
            have h4 := List.mem_filter.mp hx
            exact ⟨h4.1, by simpa using h4.2⟩
          have hfind : ∀ x ∈ first :: restSubs,
              findRow st x.subscription_id = some x :=
            fun x hx => findRow_mem hnodup (hmemsubs x hx).1
          have hnd : ((first :: restSubs).map
              (fun r => r.subscription_id)).Nodup := by
            rw [← hread]
            exact filter_map_sid_nodup hnodup _
          obtain ⟨pre, s, post, hsplit, hsid, hdom, hpre, hstable, hevents⟩ :=
            renewSubs_pushFailed hfind hnd herr
          have hsmem : s ∈ first :: restSubs := by
            rw [hsplit]
            exact List.mem_append_right pre (List.mem_cons_self s post)
          have hndsplit := hnd
          rw [hsplit, List.map_append, List.map_cons] at hndsplit
          have hdisj := List.disjoint_of_nodup_append hndsplit
          have hconsnd := List.Nodup.of_append_right hndsplit
          rw [List.nodup_cons] at hconsnd
          have hpre_ne : ∀ y ∈ pre, y.subscription_id ≠ sid := by
            intro y hy he
            refine hdisj (List.mem_map_of_mem (fun r => r.subscription_id) hy) ?_
            rw [he, ← hsid]
            exact List.mem_cons_self _ _
          refine ⟨hdom.symm.trans (hmemsubs s hsmem).2,
            pre, s, post, tok, hsplit, hsid, ?_, ?_, ?_, ?_⟩
          · rw [hstable sid hpre_ne, ← hsid]
            exact findRow_mem hnodup (hmemsubs s hsmem).1
          · rw [hevents, List.countP_cons]
            have h5 : isPushFor sid (Event.refreshCall dom first.refresh_token) =
                false := rfl
            rw [h5, List.countP_map, List.countP_append]
            have h6 : List.countP
                ((isPushFor sid) ∘
                  (fun x => Event.pushCall ne x.subscription_id tok x.domain))
                pre = 0 := by
              rw [List.countP_eq_zero]
              intro y hy
              simp [Function.comp, isPushFor, hpre_ne y hy]
            rw [h6]
            simp [Function.comp, isPushFor, hsid]
          · intro x hx
            obtain ⟨rt, _, hfr⟩ := hpre x hx
            exact ⟨rt, hfr⟩
          · intro x hx
            have hxsubs : x ∈ first :: restSubs := by
              rw [hsplit]
              exact List.mem_append_right pre (List.mem_cons_of_mem s hx)
            have hx_ne_pre : ∀ y ∈ pre, y.subscription_id ≠ x.subscription_id := by
              intro y hy he
              refine hdisj (List.mem_map_of_mem (fun r => r.subscription_id) hy) ?_
              rw [he]
              exact List.mem_cons_of_mem _
                (List.mem_map_of_mem (fun r => r.subscription_id) hx)
            have hx_ne_s : s.subscription_id ≠ x.subscription_id := by
              intro he
              exact hconsnd.1
                (he ▸ List.mem_map_of_mem (fun r => r.subscription_id) hx)
            constructor
            · rw [hstable x.subscription_id hx_ne_pre]
              exact findRow_mem hnodup (hmemsubs x hxsubs).1
            · rw [hevents, List.countP_cons, List.countP_map]
              have h8 : List.countP
                  ((isPushFor x.subscription_id) ∘
                    (fun y => Event.pushCall ne y.subscription_id tok y.domain))
                  (pre ++ [s]) = 0 := by
                rw [List.countP_eq_zero]
                intro y hy
                rcases List.mem_append.mp hy with hy2 | hy2
                · simp [Function.comp, isPushFor, hx_ne_pre y hy2]
                · rw [List.mem_singleton] at hy2
                  rw [hy2]
                  simp [Function.comp, isPushFor, hx_ne_s]
              rw [h8]
              simp [isPushFor]

/-- C2 (witness): the amended theorem applied to the concrete
three-sibling domain with the failing push on `s2`. -/
theorem c2_push_failure_skips_rest_witness :
    ((exStoreC2.map (fun r => r.subscription_id)).Nodup ∧
     (renewDomain exEnvPushFailS2 (render exNewExpire) exStoreC2 "a").err =
       some (.pushFailed "a" "s2")) ∧
    ("a" = "a" ∧ ∃ pre s post ot,
      read_from_table exStoreC2 "a" = pre ++ s :: post ∧
      s.subscription_id = "s2" ∧
      findRow (renewDomain exEnvPushFailS2 (render exNewExpire) exStoreC2
        "a").store "s2" = some s ∧
      (renewDomain exEnvPushFailS2 (render exNewExpire) exStoreC2
        "a").events.countP (isPushFor "s2") = 1 ∧
      (∀ x ∈ pre, ∃ rt,
        findRow (renewDomain exEnvPushFailS2 (render exNewExpire) exStoreC2
          "a").store x.subscription_id =
          some (renewRow (render exNewExpire) exEnvPushFailS2.lu ot rt x)) ∧
      (∀ x ∈ post,
        findRow (renewDomain exEnvPushFailS2 (render exNewExpire) exStoreC2
          "a").store x.subscription_id = some x ∧
        (renewDomain exEnvPushFailS2 (render exNewExpire) exStoreC2
          "a").events.countP (isPushFor x.subscription_id) = 0)) :=
  ⟨⟨by decide, by decide⟩,
   c2_push_failure_skips_rest exEnvPushFailS2 (render exNewExpire) exStoreC2
     "a" "a" "s2" (by decide) (by decide)⟩

/-- C3 (failing input): two subscriptions of domain `a` hold divergent
refresh tokens `r1` and `r2`; the renewal does not fail the domain — it
refreshes with the first row's token `r1`, pushes both subscriptions and
rewrites both local records, performing exactly the writes the claim
says must not happen. -/
theorem c3_divergent_tokens_ignored :
    (exRow 1 "a" "s1" "2025-01-01 00:00:00" "r1").refresh_token ≠
      (exRow 2 "a" "s2" "2025-01-01 00:00:00" "r2").refresh_token ∧
    (check_and_update_subscriptions exEnvOk exStoreC3).err = none ∧
    (check_and_update_subscriptions exEnvOk exStoreC3).events =
      [Event.refreshCall "a" "r1",
       Event.pushCall (render exNewExpire) "s1" "new-at" "a",
       Event.pushCall (render exNewExpire) "s2" "new-at" "a"] ∧
    findRow (check_and_update_subscriptions exEnvOk exStoreC3).store "s2" =
      some (renewRow (render exNewExpire) exLu "new-at" "new-rt"
        (exRow 2 "a" "s2" "2025-01-01 00:00:00" "r2")) := by decide

/-- C4 (counterexample): `s1` of domain `a` is expiring, its sibling
`s2` expires only in 2099 and is not selected by the scan; the cycle
nevertheless rewrites `s2` to `now + duration`, a strictly earlier
expiry than its stored value — refuting "the engine never writes an
expires earlier than the current stored value". -/
theorem c4_counterexample :
    (fetch_expiring_subscriptions exStoreC4 exEnvOk.renewal_threshold).1 =
      [exRow 1 "a" "s1" "2025-01-01 00:00:00" "r"] ∧
    (check_and_update_subscriptions exEnvOk exStoreC4).err = none ∧
    findRow (check_and_update_subscriptions exEnvOk exStoreC4).store "s2" =
      some (renewRow (render exNewExpire) exLu "new-at" "new-rt"
        (exRow 2 "a" "s2" "2099-01-01 00:00:00" "r")) ∧
    strLt (render exNewExpire) "2099-01-01 00:00:00" = true := by decide

/-- C4 (amended): in a cycle that completes without an exception, every
rewritten row's new `expires` is exactly the rendering of
`now + subscription_duration`; every subscription selected by the scan
is rewritten, and — because the renewal threshold precedes the new
expiry (the configured cadence is shorter than the duration) — its new
expiry is chronologically and lexicographically strictly later than its
old one.  (Non-candidate siblings of a renewed domain are also
rewritten, and for them the new value can be earlier, as the
counterexample shows.) -/
theorem c4_renewed_expiry_exact (env : Env) (store : List Subscription)
    (r : Subscription) (dtOld : DT)
    (hnodup : (store.map (fun x => x.subscription_id)).Nodup)
    (hok : (check_and_update_subscriptions env store).err = none)
    (hcand : r ∈ (fetch_expiring_subscriptions store env.renewal_threshold).1)
    (hexp : r.expires = render dtOld)
    (hv1 : dtOld.Valid) (hv2 : env.renewal_threshold.Valid)
    (hv3 : env.new_expire_dt.Valid)
    (hcad : DT.ltB env.renewal_threshold env.new_expire_dt = true) :
    DT.ltB dtOld env.new_expire_dt = true ∧
    strLt r.expires (render env.new_expire_dt) = true ∧
    (∃ ot rt, findRow (check_and_update_subscriptions env store).store
        r.subscription_id =
      some (renewRow (render env.new_expire_dt) env.lu ot rt r)) ∧
    (∀ r2 ∈ (check_and_update_subscriptions env store).store,
      r2 ∈ store ∨ r2.expires = render env.new_expire_dt) := by
  have hmem := List.mem_filter.mp hcand
  have hle : DT.leB dtOld env.renewal_threshold = true := by
    rw [← render_le_iff dtOld env.renewal_threshold hv1 hv2, ← hexp]
    exact hmem.2
  have hlt : DT.ltB dtOld env.new_expire_dt = true := by
    rcases (dtLe_iff dtOld env.renewal_threshold).mp hle with he | hl
    · rw [he]; exact hcad
    · exact dtLt_trans hl hcad
  refine ⟨hlt, ?_, ?_, ?_⟩
  · rw [hexp]
    exact (render_lt_iff dtOld env.new_expire_dt hv1 hv3).mpr hlt
  · rw [cycle_eq] at hok ⊢
    have hdmem : r.domain ∈ uniqueDomains
        (((fetch_expiring_subscriptions store env.renewal_threshold).1).map
          (fun d => d.domain)) := by
      rw [mem_uniqueDomains]
      exact List.mem_map_of_mem (fun d => d.domain) hcand
    obtain ⟨h1, _, _⟩ :=
      renewDomains_ok hnodup (nodup_uniqueDomains _) hok
    exact (h1 r.subscription_id r (findRow_mem hnodup hmem.1)).1 hdmem
  · intro r2 hr2
    rw [cycle_eq] at hr2
    have hinv := (@renewDomains_inv env (render env.new_expire_dt)
      (uniqueDomains
        (((fetch_expiring_subscriptions store env.renewal_threshold).1).map
          (fun d => d.domain))) store store
      (TripleInv_refl (render env.new_expire_dt) env.lu store)).1
    exact TripleInv_mem hinv r2 hr2

/-- C4 (witness): the amended theorem applied to the candidate `s1` of
the concrete store. -/
theorem c4_renewed_expiry_exact_witness :
    ((check_and_update_subscriptions exEnvOk exStoreC4).err = none ∧
     exRow 1 "a" "s1" "2025-01-01 00:00:00" "r" ∈
       (fetch_expiring_subscriptions exStoreC4 exEnvOk.renewal_threshold).1 ∧
     DT.ltB exEnvOk.renewal_threshold exEnvOk.new_expire_dt = true) ∧
    (DT.ltB ⟨2025, 1, 1, 0, 0, 0⟩ exEnvOk.new_expire_dt = true ∧
     strLt (exRow 1 "a" "s1" "2025-01-01 00:00:00" "r").expires
       (render exEnvOk.new_expire_dt) = true ∧
     (∃ ot rt, findRow (check_and_update_subscriptions exEnvOk exStoreC4).store
         (exRow 1 "a" "s1" "2025-01-01 00:00:00" "r").subscription_id =
       some (renewRow (render exEnvOk.new_expire_dt) exEnvOk.lu ot rt
         (exRow 1 "a" "s1" "2025-01-01 00:00:00" "r"))) ∧
     (∀ r2 ∈ (check_and_update_subscriptions exEnvOk exStoreC4).store,
       r2 ∈ exStoreC4 ∨ r2.expires = render exEnvOk.new_expire_dt)) :=
  ⟨⟨by decide, by decide, by decide⟩,
   c4_renewed_expiry_exact exEnvOk exStoreC4
     (exRow 1 "a" "s1" "2025-01-01 00:00:00" "r") ⟨2025, 1, 1, 0, 0, 0⟩
     (by decide) (by decide) (by decide) (by decide) (by decide) (by decide)
     (by decide) (by decide)⟩

/-- C5 (counterexample): domain `b` has an expiring subscription, yet in
the cycle where domain `a`'s refresh fails first, zero (not exactly one)
token-refresh calls are made for `b`. -/
theorem c5_counterexample :
    ((fetch_expiring_subscriptions exStoreC1
        exEnvRefreshFailRa.renewal_threshold).1).any
      (fun c => c.domain == "b") = true ∧
    (check_and_update_subscriptions exEnvRefreshFailRa exStoreC1).events.countP
      (isRefreshFor "b") = 0 := by decide

/-- C5 (amended): in every cycle that completes without an exception,
the number of token-refresh calls made for a domain is exactly one if
the scan returned at least one expiring subscription of that domain
(regardless of how many), and zero otherwise. -/
theorem c5_one_refresh_per_domain (env : Env) (store : List Subscription)
    (d : String)
    (hok : (check_and_update_subscriptions env store).err = none) :
    (check_and_update_subscriptions env store).events.countP
      (isRefreshFor d) =
      if ((fetch_expiring_subscriptions store env.renewal_threshold).1).any
          (fun c => c.domain == d) = true then 1 else 0 := by
  rw [cycle_eq] at hok ⊢
  rw [renewDomains_count_ok (nodup_uniqueDomains _) hok d]
  by_cases h : ((fetch_expiring_subscriptions store
      env.renewal_threshold).1).any (fun c => c.domain == d) = true
  · rw [if_pos h, if_pos]
    rw [mem_uniqueDomains]
    obtain ⟨c, hc, hcd⟩ := List.any_eq_true.mp h
    exact List.mem_map.mpr ⟨c, hc, beq_iff_eq.mp hcd⟩
  · rw [if_neg h, if_neg]
    rw [mem_uniqueDomains]
    intro hmem
    obtain ⟨c, hc, hcd⟩ := List.mem_map.mp hmem
    exact h (List.any_eq_true.mpr ⟨c, hc, by simp [hcd]⟩)

/-- C5 (witness): the amended theorem applied to the domain `a` with
three expiring subscriptions sharing one refresh token: one call. -/
theorem c5_one_refresh_per_domain_witness :
    (check_and_update_subscriptions exEnvOk exStoreC2).err = none ∧
    (check_and_update_subscriptions exEnvOk exStoreC2).events.countP
      (isRefreshFor "a") =
      if ((fetch_expiring_subscriptions exStoreC2
          exEnvOk.renewal_threshold).1).any
          (fun c => c.domain == "a") = true then 1 else 0 :=
  ⟨by decide, c5_one_refresh_per_domain exEnvOk exStoreC2 "a" (by decide)⟩

/-- C6: if the token-refresh call for a domain fails in a cycle (either
the remote call raises or the response has no usable access token), no
remote expiry push is made for any row of that domain and every row of
that domain keeps its exact prior record (`expires`, `oauth_token`,
`refresh_token` all unchanged). -/
theorem c6_refresh_failure_no_writes (env : Env) (store : List Subscription)
    (d : String)
    (hnodup : (store.map (fun r => r.subscription_id)).Nodup)
    (herr : (check_and_update_subscriptions env store).err =
        some (.refreshFailed d) ∨
      (check_and_update_subscriptions env store).err =
        some (.noAccessToken d)) :
    (∀ sid r0, findRow store sid = some r0 → r0.domain = d →
      findRow (check_and_update_subscriptions env store).store sid = some r0) ∧
    (check_and_update_subscriptions env store).events.countP (isPushDom d) =
      0 := by
  rw [cycle_eq] at herr ⊢
  exact renewDomains_refreshFailed hnodup (nodup_uniqueDomains _) herr

/-- C6 (witness): applied to the three-subscription domain `a` whose
refresh fails. -/
theorem c6_refresh_failure_no_writes_witness :
    ((check_and_update_subscriptions exEnvRefreshFailAll exStoreC2).err =
      some (.refreshFailed "a") ∨
     (check_and_update_subscriptions exEnvRefreshFailAll exStoreC2).err =
      some (.noAccessToken "a")) ∧
    ((∀ sid r0, findRow exStoreC2 sid = some r0 → r0.domain = "a" →
       findRow (check_and_update_subscriptions exEnvRefreshFailAll
         exStoreC2).store sid = some r0) ∧
     (check_and_update_subscriptions exEnvRefreshFailAll
       exStoreC2).events.countP (isPushDom "a") = 0) :=
  ⟨Or.inl (by decide),
   c6_refresh_failure_no_writes exEnvRefreshFailAll exStoreC2 "a" (by decide)
     (Or.inl (by decide))⟩

/-- C7: the expiring-subscription scan leaves the store unchanged and
returns exactly the stored rows whose `expires` timestamp is
chronologically at or before `now + renewal_window` (the rendered
threshold), for rows holding well-formed timestamps. -/
theorem c7_scan_exact (store : List Subscription) (th : DT)
    (r : Subscription) (dt : DT)
    (hexp : r.expires = render dt) (hv1 : dt.Valid) (hv2 : th.Valid) :
    (fetch_expiring_subscriptions store th).2 = store ∧
    (r ∈ (fetch_expiring_subscriptions store th).1 ↔
      (r ∈ store ∧ DT.leB dt th = true)) := by
  refine ⟨rfl, ?_⟩
  show r ∈ store.filter (fun x => strLe x.expires (render th)) ↔ _
  rw [List.mem_filter]
  apply and_congr_right
  intro _
  rw [hexp, render_le_iff dt th hv1 hv2]

/-- C7 (witness): a subscription expiring before the threshold is
selected, and the store comes back unmodified. -/
theorem c7_scan_exact_witness :
    (fetch_expiring_subscriptions exStoreC2 exThreshold).2 = exStoreC2 ∧
    (exRow 1 "a" "s1" "2025-01-01 00:00:00" "r" ∈
        (fetch_expiring_subscriptions exStoreC2 exThreshold).1 ↔
      (exRow 1 "a" "s1" "2025-01-01 00:00:00" "r" ∈ exStoreC2 ∧
        DT.leB ⟨2025, 1, 1, 0, 0, 0⟩ exThreshold = true)) :=
  c7_scan_exact exStoreC2 exThreshold
    (exRow 1 "a" "s1" "2025-01-01 00:00:00" "r") ⟨2025, 1, 1, 0, 0, 0⟩
    (by decide) (by decide) (by decide)

/-- C8 (failing input): the creation flow stores the refresh token under
the dict key `renewal_token`, which is not a column of `Subscriptions`.
On a fresh subscription id the upsert's insert branch fails (HTTP 500,
no local record at all); and even when a row with that id already
exists, the update branch silently leaves the `refresh_token` column at
its old value — the exchanged refresh token `refresh-tok` is never
persisted, refuting the claim. -/
theorem c8_renewal_token_key_bug :
    setup_new_subscription [] exReq
      (.ok ⟨some "access-tok", some "refresh-tok"⟩)
      (.ok ⟨some "s-new", some "2025-06-01 00:00:00", none⟩) exLu =
      .error .dbUpsertFailed ∧
    setup_new_subscription [exRow 9 "a" "s-old" "2025-05-01 00:00:00" "old-rt"]
      exReq (.ok ⟨some "access-tok", some "refresh-tok"⟩)
      (.ok ⟨some "s-old", some "2025-06-01 00:00:00", none⟩) exLu =
      .ok ([{ id := 9, last_updated := some exLu, domain := "a",
              model := "presence", expires := "2025-06-01 00:00:00",
              subscription_id := "s-old",
              post_url := "https://cb.example/hook", user := "u",
              oauth_token := "access-tok",
              refresh_token := "old-rt" }],
           "s-old", some "2025-06-01 00:00:00") := ⟨rfl, rfl⟩

/-- C9: in every renewal cycle, every store state observable after a
committed write (each trace snapshot and the final store) relates
pointwise to the initial store: each row is either exactly its initial
value or its initial value with `expires`, `last_updated`,
`oauth_token`, `refresh_token` all replaced in one step — no state holds
a new credential pair with the old expiry or vice versa. -/
theorem c9_credential_writes_atomic (env : Env) (store : List Subscription) :
    ∀ st2 ∈ (check_and_update_subscriptions env store).trace ++
        [(check_and_update_subscriptions env store).store],
      TripleInv (render env.new_expire_dt) env.lu store st2 := by
  intro st2 hst2
  rw [cycle_eq] at hst2
  have h := @renewDomains_inv env (render env.new_expire_dt)
    (uniqueDomains
      (((fetch_expiring_subscriptions store env.renewal_threshold).1).map
        (fun d => d.domain))) store store
    (TripleInv_refl (render env.new_expire_dt) env.lu store)
  rcases List.mem_append.mp hst2 with h2 | h2
  · exact h.2 st2 h2
  · rw [List.mem_singleton] at h2
    rw [h2]
    exact h.1

/-- C9 (witness): the final store of the concrete successful cycle is a
whole-triple rewrite of the initial store. -/
theorem c9_credential_writes_atomic_witness :
    TripleInv (render exEnvOk.new_expire_dt) exEnvOk.lu exStoreC2
      (check_and_update_subscriptions exEnvOk exStoreC2).store :=
  c9_credential_writes_atomic exEnvOk exStoreC2
    (check_and_update_subscriptions exEnvOk exStoreC2).store (by simp)

/-- C10: for UTC datetimes with four-digit years rendered by the fixed
`YYYY-MM-DD HH:MM:SS` format, lexicographic comparison of the rendered
strings agrees exactly with chronological comparison of the datetimes
(strictly, non-strictly, and on equality), so the store's string
threshold comparison selects exactly the chronologically expiring rows. -/
theorem c10_format_order_preserving (t1 t2 : DT)
    (h1 : t1.Valid) (h2 : t2.Valid) :
    (strLt (render t1) (render t2) = true ↔ DT.ltB t1 t2 = true) ∧
    (strLe (render t1) (render t2) = true ↔ DT.leB t1 t2 = true) ∧
    (render t1 = render t2 ↔ t1 = t2) :=
  ⟨render_lt_iff t1 t2 h1 h2, render_le_iff t1 t2 h1 h2,
   render_eq_iff t1 t2 h1 h2⟩

/-- C10 (witness): the order agreement at two concrete datetimes one day
apart. -/
theorem c10_format_order_preserving_witness :
    ((strLt (render ⟨2025, 1, 1, 23, 59, 59⟩) (render ⟨2025, 1, 2, 0, 0, 0⟩) =
        true ↔
      DT.ltB ⟨2025, 1, 1, 23, 59, 59⟩ ⟨2025, 1, 2, 0, 0, 0⟩ = true) ∧
     (strLe (render ⟨2025, 1, 1, 23, 59, 59⟩) (render ⟨2025, 1, 2, 0, 0, 0⟩) =
        true ↔
      DT.leB ⟨2025, 1, 1, 23, 59, 59⟩ ⟨2025, 1, 2, 0, 0, 0⟩ = true) ∧
     (render ⟨2025, 1, 1, 23, 59, 59⟩ = render ⟨2025, 1, 2, 0, 0, 0⟩ ↔
      (⟨2025, 1, 1, 23, 59, 59⟩ : DT) = ⟨2025, 1, 2, 0, 0, 0⟩)) :=
  c10_format_order_preserving ⟨2025, 1, 1, 23, 59, 59⟩ ⟨2025, 1, 2, 0, 0, 0⟩
    (by decide) (by decide)

end NMS
